import Mathlib

/-!
Verification development for the vulcan reverse proxy.

The Go sources are embedded shallowly:
* pure helpers become Lean functions;
* the mutable HTTP objects (URLs, header maps) live in an explicit heap
  (`HttpHeap`), and requests hold indices into it, so that pointer sharing
  between the inbound and outbound request is observable;
* machine integers (`int`, `int64`, `time.Duration`) are modelled as `Int`
  with Go's truncated division (`Int.tdiv`);
* `float64` fail rates are modelled as `Rat`; none of the proved properties
  depend on rounding;
* fallible Go functions return `Except`/`Option`.

Interfaces of the repository that are not part of the given sources
(the throttler, load balancer, priority queue, header utilities, HTTP error
values) are modelled from the specification and marked as such in their
doc comments.
-/

/-! ### URLs, headers and the request heap -/

/-- A parsed URL, the fields of `net/url.URL` used by the proxy. -/
structure Url where
  scheme : String
  host : String
  path : String
  rawQuery : String
deriving DecidableEq

/-- An HTTP header map, `net/http.Header`: an association list from
canonical header names to value lists. -/
abbrev Header := List (String × List String)

/-- Does the header map contain the key `k`? -/
def containsKey (h : Header) (k : String) : Bool :=
  h.any (fun e => e.1 == k)

/-- Value list stored under key `k` (`[]` when absent). -/
def hGet (h : Header) (k : String) : List String :=
  match h.find? (fun e => e.1 == k) with
  | some e => e.2
  | none => []

/-- `Header.Add`: append one value under key `k`. -/
def hAdd (h : Header) (k v : String) : Header :=
  if containsKey h k then
    h.map (fun e => if e.1 == k then (e.1, e.2 ++ [v]) else e)
  else
    h ++ [(k, [v])]

/-- `Header.Del`: drop the key `k` entirely. -/
def hDel (h : Header) (k : String) : Header :=
  h.filter (fun e => e.1 != k)

/-- `Header.Set`: replace the values of key `k` by the single value `v`. -/
def hSet (h : Header) (k v : String) : Header :=
  hDel h k ++ [(k, [v])]

/-- Modelled from the spec: the `copyHeaders`/`netutils.CopyHeaders` utility
(not in the given sources) adds every value of `src` into `dst`. -/
def copyHeaders (dst src : Header) : Header :=
  src.foldl (fun d e => e.2.foldl (fun d v => hAdd d e.1 v) d) dst

/-- Modelled from the spec: the `removeHeaders`/`netutils.RemoveHeaders`
utility (not in the given sources) deletes every listed key. -/
def removeHeaders (names : List String) (h : Header) : Header :=
  names.foldl (fun h n => hDel h n) h

/-- Modelled from the spec: the `hasHeaders` utility (not in the given
sources) reports whether any of the listed keys is present. -/
def hasHeaders (names : List String) (h : Header) : Bool :=
  names.any (fun n => containsKey h n)

/-- Hop-by-hop headers, removed when sent to the backend (`src/proxy.go`). -/
def hopHeaders : List String :=
  ["Connection", "Keep-Alive", "Proxy-Authenticate", "Proxy-Authorization",
   "Te", "Trailers", "Transfer-Encoding", "Upgrade"]

def xForwardedFor : String := "X-Forwarded-For"
def xForwardedProto : String := "X-Forwarded-Proto"
def xForwardedHost : String := "X-Forwarded-Host"
def xForwardedServer : String := "X-Forwarded-Server"

/-- The mutable heap of URL objects and header maps; requests hold indices
into it, which makes Go pointer sharing observable. -/
structure HttpHeap where
  urls : List Url
  headers : List Header
deriving DecidableEq

def getUrlAt (hp : HttpHeap) (r : Nat) : Url :=
  hp.urls.getD r ⟨"", "", "", ""⟩

def setUrlAt (hp : HttpHeap) (r : Nat) (u : Url) : HttpHeap :=
  { hp with urls := hp.urls.set r u }

def getHeaderAt (hp : HttpHeap) (r : Nat) : Header :=
  hp.headers.getD r []

def setHeaderAt (hp : HttpHeap) (r : Nat) (v : Header) : HttpHeap :=
  { hp with headers := hp.headers.set r v }

/-- The fields of `net/http.Request` used by the rewriting code.  `urlRef`
and `headerRef` are heap references (Go pointers / shared maps). -/
structure Request where
  urlRef : Nat
  headerRef : Nat
  proto : String
  protoMajor : Nat
  protoMinor : Nat
  close : Bool
  host : String
  remoteAddr : String
  tls : Bool
deriving DecidableEq

/-! ### Errors -/

/-- Modelled from the spec: `HttpError` (status code plus JSON body) and its
`TooManyRequestsError` specialisation are defined outside the given
sources; only the status and the retry-after seconds matter here. -/
inductive ProxyError where
  | http : Nat → ProxyError
  | tooManyRequests : Int → ProxyError
deriving DecidableEq

/-- Modelled from the spec: the status code carried by a proxy error;
`TooManyRequestsError` is surfaced as 429. -/
def ProxyError.statusCode : ProxyError → Nat
  | .http c => c
  | .tooManyRequests _ => 429

/-- Modelled from the spec: the `Retry-After` seconds surfaced with a 429. -/
def ProxyError.retryAfter : ProxyError → Option Int
  | .http _ => none
  | .tooManyRequests s => some s

instance {e a : Type} [DecidableEq e] [DecidableEq a] : DecidableEq (Except e a) := fun x y =>
  match x, y with
  | .error v, .error w => if h : v = w then isTrue (by rw [h]) else isFalse (by simp [h])
  | .ok v, .ok w => if h : v = w then isTrue (by rw [h]) else isFalse (by simp [h])
  | .error _, .ok _ => isFalse (by simp)
  | .ok _, .error _ => isFalse (by simp)

/-! ### Upstreams and the replayable body -/

/-- An upstream backend: URL plus optional header overrides
(`Upstream` is used by `src/proxy.go`; the struct itself is modelled from
the spec data model). -/
structure Upstream where
  url : Url
  headers : Option Header
deriving DecidableEq

/-- Modelled from the spec: the throttler returns per-upstream stats; only
the upstream component is relevant to the proxy. -/
structure UpstreamStats where
  upstream : Upstream
deriving DecidableEq

/-- The `Buffer` wrapping `bytes.Reader` from `src/proxy.go`: a byte list
plus a read position. -/
structure Buffer where
  data : List Nat
  pos : Nat
deriving DecidableEq

/-- `Seek(0, 0)` on the buffer. -/
def seekZero (b : Buffer) : Buffer := { b with pos := 0 }

/-- `ioutil.ReadAll`: the bytes from the current position, leaving the
position at the end. -/
def readAll (b : Buffer) : List Nat × Buffer :=
  (b.data.drop b.pos, { b with pos := b.data.length })

/-! ### proxyRequest (src/proxy.go) -/

/-- The failover loop of `proxyRequest`: seek the replayable body to zero
before each attempt, forward, return the first upstream that succeeds, and
fail with a 502 `HttpError` when the list is exhausted.  `forward u bytes`
is the outcome of `proxyToUpstream` when the transport reads `bytes` from
the body.  Also returns the trace of attempts (upstream, bytes read). -/
def proxyFailoverLoop (forward : Upstream → List Nat → Bool) (b : Buffer) :
    List Upstream → List (Upstream × List Nat) × (Option Upstream × Option ProxyError)
  | [] => ([], (none, some (ProxyError.http 502)))
  | u :: rest =>
    let b0 := seekZero b
    let r := readAll b0
    if forward u r.1 then ([(u, r.1)], (some u, none))
    else
      let t := proxyFailoverLoop forward r.2 rest
      ((u, r.1) :: t.1, t.2)

/-- `proxyRequest` from `src/proxy.go`.  Without failover the first
upstream is forwarded to directly (`upstreams[0]`; `none` models the Go
index panic on an empty list).  With failover the body is buffered and the
loop above runs.  The result carries the attempt trace and the Go return
pair `(*Upstream, error)`. -/
def proxyRequest (failover : Bool) (forward : Upstream → List Nat → Bool)
    (req : Buffer) (upstreams : List Upstream) :
    Option (List (Upstream × List Nat) × (Option Upstream × Option ProxyError)) :=
  if failover then
    let r := readAll req
    some (proxyFailoverLoop forward ⟨r.1, 0⟩ upstreams)
  else
    match upstreams with
    | [] => none
    | u :: _ =>
      let r := readAll req
      if forward u r.1 then some ([(u, r.1)], (some u, none))
      else some ([(u, r.1)], (some u, some (ProxyError.http 502)))

/-! ### getUpstreams (src/proxy.go) -/

/-- `getUpstreams` from `src/proxy.go`.  `sortedUpstreams` and
`sortedUpstreamsByStats` are the load-balancer orderings (the load balancer
is an interface outside the given sources, modelled from the spec as pure
ordering functions).  `throttleResult` is the outcome of
`throttler.throttle`: `none` when the backend itself failed, otherwise the
feasible stats and the retry-after seconds. -/
def getUpstreams
    (sortedUpstreams : List Upstream → List Upstream)
    (sortedUpstreamsByStats : List UpstreamStats → List Upstream)
    (throttleResult : Option (List UpstreamStats × Int))
    (upstreams : List Upstream) : Except ProxyError (List Upstream) :=
  match throttleResult with
  | none => .ok (sortedUpstreams upstreams)
  | some sr =>
    if sr.1.length = 0 then .error (ProxyError.tooManyRequests sr.2)
    else .ok (sortedUpstreamsByStats sr.1)

/-! ### validateProxySettings (src/proxy.go) -/

def DefaultHttpReadTimeout : Int := 10000000000
def DefaultHttpDialTimeout : Int := 10000000000

/-- `ProxySettings` from `src/proxy.go`; the backend and load balancer are
interface pointers, so only their nil-ness matters here. -/
structure ProxySettings where
  controlServers : List String
  hasThrottlerBackend : Bool
  hasLoadBalancer : Bool
  httpReadTimeout : Int
  httpDialTimeout : Int
deriving DecidableEq

/-- `validateProxySettings` from `src/proxy.go`, faithful to the source:
the second zero test re-examines `HttpReadTimeout` (the duplicated
default-assignment slip), so `HttpDialTimeout` is never defaulted. -/
def validateProxySettings : Option ProxySettings → Except String ProxySettings
  | none => .error "Provide proxy settings"
  | some s =>
    if s.controlServers.length = 0 then .error "Supply at least one control server"
    else if !s.hasThrottlerBackend then .error "Backend can not be nil"
    else if !s.hasLoadBalancer then .error "Load balancer can not be nil"
    else
      let s1 := if s.httpReadTimeout = 0 then { s with httpReadTimeout := DefaultHttpReadTimeout } else s
      let s2 := if s1.httpReadTimeout = 0 then { s1 with httpDialTimeout := DefaultHttpDialTimeout } else s1
      .ok s2

/-! ### Endpoints and the cursor table (src/unnamed/part_002, roundrobin) -/

/-- A load-balancer endpoint (`loadbalance.Endpoint` is an interface outside
the given sources; modelled from the spec: id, URL, activity flag).  The id
is a byte list, the UTF-8 bytes of the Go id string. -/
structure Endpoint where
  id : List Nat
  url : Url
  active : Bool
deriving DecidableEq

def fnvPrime : Nat := 16777619
def fnvOffsetBasis : Nat := 2166136261

/-- One step of 32-bit FNV-1: multiply by the prime modulo `2^32`, then
xor the next byte. -/
def fnvByte (h b : Nat) : Nat := (h * fnvPrime % 4294967296) ^^^ b

/-- `hash.Write` of a byte string into the FNV-1 state. -/
def fnvWrite (h : Nat) (bs : List Nat) : Nat := bs.foldl fnvByte h

/-- `computeHash`: FNV-1 of the concatenated endpoint ids. -/
def computeHash (endpoints : List Endpoint) : Nat :=
  endpoints.foldl (fun h e => fnvWrite h e.id) fnvOffsetBasis

/-- `cursor`: round-robin position for one ordered endpoint set.  The heap
back-reference `item` is represented by the cursor id itself. -/
structure Cursor where
  index : Nat
  hash : Nat
  endpointIds : List (List Nat)
deriving DecidableEq

/-- `newCursor`. -/
def newCursor (endpoints : List Endpoint) : Cursor :=
  { index := 0
    hash := computeHash endpoints
    endpointIds := endpoints.map (fun e => e.id) }

/-- `cursor.sameEndpoints`: compare endpoint ids one by one. -/
def sameEndpoints (c : Cursor) (endpoints : List Endpoint) : Bool :=
  c.endpointIds == endpoints.map (fun e => e.id)

/-- Modelled from the spec: one entry of the expiry min-heap
(`pqItem`; the priority queue implementation is outside the given
sources).  `cursorId` doubles as the `item.c` back-reference. -/
structure PQItem where
  cursorId : Nat
  priority : Int
deriving DecidableEq

/-- `cursorMap`: cursors bucketed by hash, plus the expiry heap.  The
`arena` holds every cursor ever created, in creation order; a cursor id is
its arena index, standing in for the Go pointer identity. -/
structure CursorMap where
  arena : List Cursor
  buckets : List (Nat × List Nat)
  pq : List PQItem
deriving DecidableEq

def newCursorMap : CursorMap := ⟨[], [], []⟩

/-- Dereference a cursor id. -/
def cursorAt (cm : CursorMap) (cid : Nat) : Cursor :=
  cm.arena.getD cid ⟨0, 0, []⟩

/-- Go map lookup `cm.cursors[h]`. -/
def assocFind (buckets : List (Nat × List Nat)) (h : Nat) : Option (List Nat) :=
  (buckets.find? (fun b => b.1 == h)).map (fun b => b.2)

/-- Go map store `cm.cursors[h] = v` for an existing key. -/
def assocSet (buckets : List (Nat × List Nat)) (h : Nat) (v : List Nat) :
    List (Nat × List Nat) :=
  buckets.map (fun b => if b.1 == h then (h, v) else b)

/-- Go map `delete(cm.cursors, h)`. -/
def assocRemove (buckets : List (Nat × List Nat)) (h : Nat) :
    List (Nat × List Nat) :=
  buckets.filter (fun b => b.1 != h)

/-- `getCursor`: look the hash up; a singleton bucket is returned without
the id-equality check (faithful to the source), otherwise the bucket is
scanned with `sameEndpoints`. -/
def getCursor (cm : CursorMap) (endpoints : List Endpoint) : Option Nat :=
  let cursorHash := computeHash endpoints
  match assocFind cm.buckets cursorHash with
  | none => none
  | some cids =>
    match cids with
    | [cid] => some cid
    | _ => cids.find? (fun cid => sameEndpoints (cursorAt cm cid) endpoints)

/-- `addCursor`: allocate the cursor and append its id to its hash bucket
(creating the bucket when absent). -/
def addCursor (cm : CursorMap) (endpoints : List Endpoint) : Nat × CursorMap :=
  let c := newCursor endpoints
  let cid := cm.arena.length
  let buckets :=
    match assocFind cm.buckets c.hash with
    | none => cm.buckets ++ [(c.hash, [cid])]
    | some cids => assocSet cm.buckets c.hash (cids ++ [cid])
  (cid, { cm with arena := cm.arena ++ [c], buckets := buckets })

/-- Modelled from the spec: `priorityQueue.Update` re-keys the item of the
given cursor in the min-heap. -/
def pqUpdate (pq : List PQItem) (cid : Nat) (priority : Int) : List PQItem :=
  pq.map (fun it => if it.cursorId == cid then { it with priority := priority } else it)

/-- `upsertCursor`: return the existing cursor for this endpoint set
(refreshing its expiry), else allocate a fresh one and push it onto the
expiry heap. -/
def upsertCursor (cm : CursorMap) (endpoints : List Endpoint) (expiryTime : Int) :
    Nat × CursorMap :=
  match getCursor cm endpoints with
  | some cid => (cid, { cm with pq := pqUpdate cm.pq cid expiryTime })
  | none =>
    let r := addCursor cm endpoints
    (r.1, { r.2 with pq := r.2.pq ++ [⟨r.1, expiryTime⟩] })

/-- `cursorIndex`/`deleteCursor`: remove the cursor id from its hash
bucket, deleting the bucket key when it empties; a missing cursor leaves
the map unchanged (the Go error return). -/
def deleteCursor (cm : CursorMap) (cid : Nat) : CursorMap :=
  let h := (cursorAt cm cid).hash
  match assocFind cm.buckets h with
  | none => cm
  | some cids =>
    if cid ∈ cids then
      let cids1 := cids.erase cid
      if cids1.isEmpty then { cm with buckets := assocRemove cm.buckets h }
      else { cm with buckets := assocSet cm.buckets h cids1 }
    else cm

/-- Modelled from the spec: `priorityQueue.Peek` returns the min-priority
item (the first such in list order). -/
def pqPeek : List PQItem → Option PQItem
  | [] => none
  | it :: rest =>
    some (rest.foldl (fun acc x => if x.priority < acc.priority then x else acc) it)

/-- `deleteExpiredCursors`: pop the expiry heap while the top has
`priority ≤ now`, removing each popped cursor from the map. -/
def deleteExpiredCursors (cm : CursorMap) (now : Int) : CursorMap :=
  match hpeek : pqPeek cm.pq with
  | none => cm
  | some it =>
    if it.priority > now then cm
    else
      deleteExpiredCursors
        { deleteCursor cm it.cursorId with pq := cm.pq.erase it } now
termination_by cm.pq.length
decreasing_by
  show (cm.pq.erase it).length < cm.pq.length
  have hmem : it ∈ cm.pq := by
    cases hcm : cm.pq with
    | nil => rw [hcm] at hpeek; exact absurd hpeek (by simp [pqPeek])
    | cons x rest =>
      rw [hcm] at hpeek
      have hfold : ∀ (rest : List PQItem) (x : PQItem),
          rest.foldl (fun acc y => if y.priority < acc.priority then y else acc) x ∈ x :: rest := by
        intro rest
        induction rest with
        | nil => intro x; simp
        | cons y ys ih =>
          intro x
          simp only [List.foldl_cons]
          rcases List.mem_cons.mp (ih (if y.priority < x.priority then y else x)) with h | h
          · rw [h]
            by_cases hy : y.priority < x.priority
            · simp [hy]
            · simp [hy]
          · exact List.mem_cons.mpr (Or.inr (List.mem_cons.mpr (Or.inr h)))
      have : pqPeek (x :: rest) =
          some (rest.foldl (fun acc y => if y.priority < acc.priority then y else acc) x) := rfl
      rw [this] at hpeek
      exact (Option.some_inj.mp hpeek) ▸ hfold rest x
  rw [List.length_erase_of_mem hmem]
  exact Nat.sub_lt (List.length_pos.mpr (List.ne_nil_of_mem hmem)) Nat.one_pos

/-! ### rewriteRequest (src/proxy.go) -/

/-- `rewriteRequest` from `src/proxy.go`.  The shallow copy `*outReq = *req`
shares the URL object and the header map; the URL is then mutated in place
(scheme, host and path from the upstream; `RawQuery` is reassigned to
itself).  A fresh header map is allocated only when the upstream supplies
headers or the inbound carries a hop-by-hop header; upstream headers are
merged and hop-by-hop headers removed on whichever map the outbound
request references. -/
def rewriteRequest (hp : HttpHeap) (upstream : Upstream) (req : Request) :
    HttpHeap × Request :=
  let u := getUrlAt hp req.urlRef
  let hp1 := setUrlAt hp req.urlRef
    { u with scheme := upstream.url.scheme, host := upstream.url.host, path := upstream.url.path }
  let out1 : Request :=
    { req with proto := "HTTP/1.1", protoMajor := 1, protoMinor := 1, close := false }
  let inHeader := getHeaderAt hp1 req.headerRef
  let hpOut :=
    if upstream.headers.isSome || hasHeaders hopHeaders inHeader then
      ({ hp1 with headers := hp1.headers ++ [copyHeaders [] inHeader] },
       { out1 with headerRef := hp1.headers.length })
    else (hp1, out1)
  let hp3 :=
    match upstream.headers with
    | some uh => setHeaderAt hpOut.1 hpOut.2.headerRef
        (copyHeaders (getHeaderAt hpOut.1 hpOut.2.headerRef) uh)
    | none => hpOut.1
  let hp4 := setHeaderAt hp3 hpOut.2.headerRef
    (removeHeaders hopHeaders (getHeaderAt hp3 hpOut.2.headerRef))
  (hp4, hpOut.2)

/-! ### HttpLocation (src/unnamed/part_002, httploc) -/

/-- `Options` from the httploc package; the `ShouldFailover` predicate and
the time provider are interface values, so only their nil-ness matters. -/
structure Options where
  timeoutsRead : Int
  timeoutsDial : Int
  hasShouldFailover : Bool
  hostname : String
  trustForwardHeader : Bool
  hasTimeProvider : Bool
deriving DecidableEq

/-- Modelled from the spec: `net.SplitHostPort` splits `host:port` at the
last colon and fails (returns `none`) when there is no colon. -/
def splitHostPort (s : String) : Option (String × String) :=
  let chars := s.toList
  if chars.contains ':' then
    let afterLen := (chars.reverse.takeWhile (fun c => c ≠ ':')).length
    some (⟨chars.take (chars.length - afterLen - 1)⟩, ⟨chars.drop (chars.length - afterLen)⟩)
  else none

/-- `HttpLocation.rewriteRequest` from the httploc package.  It mutates the
shared URL in place (scheme and host from the endpoint, no path), always
allocates a fresh header map, copies the inbound headers into it, sets the
`X-Forwarded-*` headers, and removes the hop-by-hop headers last. -/
def HttpLocation.rewriteRequest (hp : HttpHeap) (opts : Options)
    (endpoint : Endpoint) (req : Request) : HttpHeap × Request :=
  let u := getUrlAt hp req.urlRef
  let hp1 := setUrlAt hp req.urlRef
    { u with scheme := endpoint.url.scheme, host := endpoint.url.host }
  let out1 : Request :=
    { req with proto := "HTTP/1.1", protoMajor := 1, protoMinor := 1, close := false }
  let hdr0 := copyHeaders [] (getHeaderAt hp1 req.headerRef)
  let hdr1 :=
    match splitHostPort req.remoteAddr with
    | some hostPort =>
      let clientIP :=
        if opts.trustForwardHeader then
          match hdr0.find? (fun e => e.1 == xForwardedFor) with
          | some prior => String.intercalate ", " prior.2 ++ ", " ++ hostPort.1
          | none => hostPort.1
        else hostPort.1
      hSet hdr0 xForwardedFor clientIP
    | none => hdr0
  let hdr2 :=
    if req.tls then hSet hdr1 xForwardedProto "https"
    else hSet hdr1 xForwardedProto "http"
  let hdr3 := if req.host ≠ "" then hSet hdr2 xForwardedHost req.host else hdr2
  let hdr4 := hSet hdr3 xForwardedServer opts.hostname
  let hdr5 := removeHeaders hopHeaders hdr4
  ({ hp1 with headers := hp1.headers ++ [hdr5] },
   { out1 with headerRef := hp1.headers.length })

/-- `parseOptions` from the httploc package, faithful to the source: the
operating-system hostname (`osHostname`, with `osHostnameErr` true when the
lookup failed) is assigned only inside the `err != nil` branch. -/
def parseOptions (osHostname : String) (osHostnameErr : Bool) (o : Options) : Options :=
  let o1 := if o.timeoutsRead ≤ 0 then { o with timeoutsRead := DefaultHttpReadTimeout } else o
  let o2 := if o1.timeoutsDial ≤ 0 then { o1 with timeoutsDial := DefaultHttpDialTimeout } else o1
  let o3 :=
    if o2.hostname = "" then
      if osHostnameErr then { o2 with hostname := osHostname } else o2
    else o2
  let o4 := if !o3.hasTimeProvider then { o3 with hasTimeProvider := true } else o3
  let o5 := if !o4.hasShouldFailover then { o4 with hasShouldFailover := true } else o4
  o5

/-! ### FSM weight handler (src/unnamed/part_002, roundrobin) -/

/-- A `WeightedEndpoint` as seen by the FSM handler: id, fixed original
weight, current effective weight, and the sliding-window meter (readiness,
fail rate, window size).  The interface these are read through is outside
the given sources; the fields are modelled from the spec data model.
Fail rates (`float64` in Go) are modelled as rationals. -/
structure WeightedEndpoint where
  id : String
  originalWeight : Int
  effectiveWeight : Int
  failRate : Rat
  meterIsReady : Bool
  meterWindowSize : Int
deriving DecidableEq

def defaultWeightedEndpoint : WeightedEndpoint := ⟨"", 0, 0, 0, false, 0⟩

/-- `EndpointWeight`, the `SuggestedWeight` published by the handler. -/
structure EndpointWeight where
  endpoint : WeightedEndpoint
  weight : Int
deriving DecidableEq

def FSMMaxWeight : Int := 4096
def FSMGrowFactor : Int := 16

/-- `increase`. -/
def increase (weight : Int) : Int := weight * FSMGrowFactor

/-- `decrease`: divide by the grow factor but never drop below the
target (Go integer division truncates toward zero, `Int.tdiv`). -/
def decrease (target current : Int) : Int :=
  let adjusted := current.tdiv FSMGrowFactor
  if adjusted < target then target else adjusted

/-- Modelled from the spec: the `gcd` helper is outside the given sources;
on the nonnegative weights used here it is Euclid's algorithm. -/
def intGcd (a b : Int) : Int := Int.ofNat (a.gcd b)

/-- `weightsGcd`: fold `gcd` over the weights, with `-1` marking "no
weight seen yet". -/
def weightsGcd (weights : List EndpointWeight) : Int :=
  weights.foldl (fun divisor w => if divisor = -1 then w.weight else intGcd divisor w.weight) (-1)

/-- `normalizeWeights`: divide all weights by their gcd when it exceeds 1. -/
def normalizeWeights (weights : List EndpointWeight) : List EndpointWeight :=
  let g := weightsGcd weights
  if g ≤ 1 then weights
  else weights.map (fun w => { w with weight := w.weight.tdiv g })

/-- `makeOriginalWeights`. -/
def makeOriginalWeights (endpoints : List WeightedEndpoint) : List EndpointWeight :=
  endpoints.map (fun e => ⟨e, e.originalWeight⟩)

/-- `metricsReady`: all meters saturated. -/
def metricsReady (endpoints : List WeightedEndpoint) : Bool :=
  endpoints.all (fun e => e.meterIsReady)

/-- `min`: the first endpoint with the smallest fail rate. -/
def minEndpoint : List WeightedEndpoint → WeightedEndpoint
  | [] => defaultWeightedEndpoint
  | v :: rest => rest.foldl (fun val x => if x.failRate < val.failRate then x else val) v

/-- `sort.Sort(WeightedEndpoints(vals))`: sort by fail rate (the
comparator of `WeightedEndpoints` is outside the given sources; modelled
from the spec as ordering by fail rate). -/
def sortByFailRate (vals : List WeightedEndpoint) : List WeightedEndpoint :=
  vals.mergeSort (fun a b => decide (a.failRate ≤ b.failRate))

/-- `medianEndpoint`: median fail rate of the sorted copy. -/
def medianEndpoint (values : List WeightedEndpoint) : Rat :=
  let vals := sortByFailRate values
  let l := vals.length
  if l % 2 ≠ 0 then (vals.getD (l / 2) defaultWeightedEndpoint).failRate
  else ((vals.getD (l / 2 - 1) defaultWeightedEndpoint).failRate
        + (vals.getD (l / 2) defaultWeightedEndpoint).failRate) / 2

/-- `median` on plain values. -/
def median (values : List Rat) : Rat :=
  let vals := values.mergeSort (fun a b => decide (a ≤ b))
  let l := vals.length
  if l % 2 ≠ 0 then vals.getD (l / 2) 0
  else (vals.getD (l / 2 - 1) 0 + vals.getD (l / 2) 0) / 2

/-- `medianAbsoluteDeviation`. -/
def medianAbsoluteDeviation (values : List WeightedEndpoint) : Rat :=
  let m := medianEndpoint values
  median (values.map (fun v => |v.failRate - m|))

/-- `splitEndpoints`: pad with a duplicate of the best endpoint when the
count is even, then split on the median-absolute-deviation rule.  The Go
maps of ids are modelled as id lists (membership is all that is read). -/
def splitEndpoints (endpoints : List WeightedEndpoint) : List String × List String :=
  let newEndpoints :=
    if endpoints.length % 2 = 0 then endpoints ++ [minEndpoint endpoints]
    else endpoints
  let m := medianEndpoint newEndpoints
  let mAbs := medianAbsoluteDeviation newEndpoints
  endpoints.foldl
    (fun gb e =>
      if e.failRate > m + mAbs * (3 / 2 : Rat) then (gb.1, gb.2 ++ [e.id])
      else (gb.1 ++ [e.id], gb.2))
    ([], [])

/-- `FSMHandler` state: debounce timer, backoff, current endpoints and the
precalculated original and last-returned weights.  Time (`time.Time` and
`time.Duration`) is modelled as nanoseconds in `Int`; the time provider
becomes an explicit `now` argument. -/
structure FSMHandler where
  backoffDuration : Int
  timer : Int
  endpoints : List WeightedEndpoint
  originalWeights : List EndpointWeight
  lastWeights : List EndpointWeight
deriving DecidableEq

/-- The zero `FSMHandler` produced by `NewFSMHandlerWithOptions`. -/
def FSMHandler.initial : FSMHandler := ⟨0, 0, [], [], []⟩

/-- `FSMHandler.Init`. -/
def FSMHandler.init (fsm : FSMHandler) (endpoints : List WeightedEndpoint)
    (now : Int) : FSMHandler :=
  { fsm with
    originalWeights := makeOriginalWeights endpoints
    lastWeights := makeOriginalWeights endpoints
    endpoints := endpoints
    backoffDuration :=
      match endpoints with
      | [] => fsm.backoffDuration
      | e :: _ => e.meterWindowSize.tdiv 2
    timer := now - 1000000000 }

/-- `FSMHandler.timerExpired` (`time.Before` is strict). -/
def FSMHandler.timerExpired (fsm : FSMHandler) (now : Int) : Bool :=
  fsm.timer < now

/-- `FSMHandler.setTimer`. -/
def FSMHandler.setTimer (fsm : FSMHandler) (now : Int) : FSMHandler :=
  { fsm with timer := now + fsm.backoffDuration }

/-- `FSMHandler.convergeWeights`: move every weight back toward the
original and report whether anything differed. -/
def FSMHandler.convergeWeights (fsm : FSMHandler) : List EndpointWeight × Bool :=
  let weights := fsm.endpoints.map
    (fun e => EndpointWeight.mk e (decrease e.originalWeight e.effectiveWeight))
  let changed := fsm.endpoints.any (fun e => e.effectiveWeight ≠ e.originalWeight)
  (normalizeWeights weights, changed)

/-- `FSMHandler.adjustWeights` (lower-case in the source): multiply the
weight of good endpoints by the grow factor when that stays within
`FSMMaxWeight`. -/
def FSMHandler.adjustWeights (fsm : FSMHandler) (good : List String) :
    List EndpointWeight :=
  normalizeWeights (fsm.endpoints.map (fun e =>
    if good.contains e.id ∧ increase e.effectiveWeight ≤ FSMMaxWeight then
      ⟨e, increase e.effectiveWeight⟩
    else ⟨e, e.effectiveWeight⟩))

/-- `FSMHandler.AdjustWeights` (the public entry point): returns the
updated handler and the published weight list. -/
def FSMHandler.AdjustWeights (fsm : FSMHandler) (now : Int) :
    FSMHandler × List EndpointWeight :=
  if fsm.endpoints.length < 2 then (fsm, fsm.originalWeights)
  else if !metricsReady fsm.endpoints then (fsm, fsm.originalWeights)
  else if !fsm.timerExpired now then (fsm, fsm.lastWeights)
  else
    let gb := splitEndpoints fsm.endpoints
    if gb.2.length = 0 ∨ gb.1.length = 0 then
      let wc := fsm.convergeWeights
      if wc.2 then
        let fsm1 := (({ fsm with lastWeights := wc.1 } : FSMHandler).setTimer now)
        (fsm1, fsm1.lastWeights)
      else (fsm, fsm.lastWeights)
    else
      let fsm1 := (({ fsm with lastWeights := fsm.adjustWeights gb.1 } : FSMHandler).setTimer now)
      (fsm1, fsm1.lastWeights)

/-- One external interaction with the FSM handler. -/
inductive FSMEvent where
  | initEvent : List WeightedEndpoint → Int → FSMEvent
  | adjustEvent : Int → FSMEvent
deriving DecidableEq

/-- Run a sequence of `Init`/`AdjustWeights` calls, collecting every weight
list published by `AdjustWeights`. -/
def runFSM : FSMHandler → List FSMEvent → FSMHandler × List (List EndpointWeight)
  | fsm, [] => (fsm, [])
  | fsm, FSMEvent.initEvent es now :: rest => runFSM (fsm.init es now) rest
  | fsm, FSMEvent.adjustEvent now :: rest =>
    let r := fsm.AdjustWeights now
    let rr := runFSM r.1 rest
    (rr.1, r.2 :: rr.2)

/-! ### Invariant predicates -/

/-- All cursor ids stored in the buckets of the map, in bucket order. -/
def bucketCursorIds (cm : CursorMap) : List Nat :=
  (cm.buckets.map (fun b => b.2)).flatten

/-- The cursor-table invariant stated by the spec: bucket keys are unique,
every stored cursor id is valid, lives in the bucket keyed by its own
hash, buckets are nonempty, no cursor is stored twice, and each stored
cursor occupies exactly one heap slot (the heap entries are, up to order,
exactly the stored cursors). -/
def wellFormed (cm : CursorMap) : Prop :=
  (cm.buckets.map (fun b => b.1)).Nodup ∧
  (bucketCursorIds cm).Nodup ∧
  (∀ b ∈ cm.buckets, b.2 ≠ [] ∧ ∀ cid ∈ b.2, cid < cm.arena.length ∧ (cursorAt cm cid).hash = b.1) ∧
  (cm.pq.map (fun it => it.cursorId)).Perm (bucketCursorIds cm)

instance : DecidablePred wellFormed := fun cm => by
  unfold wellFormed
  infer_instance

/-- An endpoint whose original and effective weights lie in
`[0, FSMMaxWeight]`. -/
def endpointBounded (e : WeightedEndpoint) : Prop :=
  0 ≤ e.originalWeight ∧ e.originalWeight ≤ FSMMaxWeight ∧
  0 ≤ e.effectiveWeight ∧ e.effectiveWeight ≤ FSMMaxWeight

instance : DecidablePred endpointBounded := fun e => by
  unfold endpointBounded
  infer_instance

/-- An event whose endpoints (if any) are all bounded. -/
def eventBounded : FSMEvent → Prop
  | .initEvent es _ => ∀ e ∈ es, endpointBounded e
  | .adjustEvent _ => True

instance : DecidablePred eventBounded := fun ev =>
  match ev with
  | .initEvent es _ => inferInstanceAs (Decidable (∀ e ∈ es, endpointBounded e))
  | .adjustEvent _ => inferInstanceAs (Decidable True)

/-- Every `Init` in the event sequence supplies only bounded endpoints. -/
def eventsBounded (events : List FSMEvent) : Prop :=
  ∀ ev ∈ events, eventBounded ev

instance : DecidablePred eventsBounded := fun events =>
  inferInstanceAs (Decidable (∀ ev ∈ events, eventBounded ev))

/-- The handler-state invariant: stored endpoints and both cached weight
lists are bounded. -/
def fsmBounded (fsm : FSMHandler) : Prop :=
  (∀ e ∈ fsm.endpoints, endpointBounded e) ∧
  (∀ w ∈ fsm.originalWeights, 0 ≤ w.weight ∧ w.weight ≤ FSMMaxWeight) ∧
  (∀ w ∈ fsm.lastWeights, 0 ≤ w.weight ∧ w.weight ≤ FSMMaxWeight)

/-! ### Helper lemmas -/

theorem getD_set_eq {α : Type} (l : List α) (r : Nat) (v d : α) (h : r < l.length) :
    (l.set r v).getD r d = v := by
  induction l generalizing r with
  | nil => simp at h
  | cons x xs ih =>
    cases r with
    | zero => rfl
    | succ n =>
      simp only [List.set_cons_succ, List.getD_cons_succ]
      exact ih n (by simpa using h)

theorem getD_set_ne {α : Type} (l : List α) (r r2 : Nat) (v d : α) (h : r ≠ r2) :
    (l.set r v).getD r2 d = l.getD r2 d := by
  induction l generalizing r r2 with
  | nil => simp [List.set]
  | cons x xs ih =>
    cases r with
    | zero =>
      cases r2 with
      | zero => exact absurd rfl h
      | succ m => rfl
    | succ n =>
      cases r2 with
      | zero => rfl
      | succ m =>
        simp only [List.set_cons_succ, List.getD_cons_succ]
        exact ih n m (fun hc => h (by rw [hc]))

theorem getD_append_lt {α : Type} (l l2 : List α) (r : Nat) (d : α) (h : r < l.length) :
    (l ++ l2).getD r d = l.getD r d := by
  induction l generalizing r with
  | nil => simp at h
  | cons x xs ih =>
    cases r with
    | zero => rfl
    | succ n =>
      simp only [List.cons_append, List.getD_cons_succ]
      exact ih n (by simpa using h)

theorem getD_append_len {α : Type} (l : List α) (v d : α) :
    (l ++ [v]).getD l.length d = v := by
  induction l with
  | nil => rfl
  | cons x xs ih => simpa using ih

theorem containsKey_hDel_self (h : Header) (k : String) :
    containsKey (hDel h k) k = false := by
  simp only [containsKey, hDel]
  rw [Bool.eq_false_iff]
  intro hc
  rcases List.any_eq_true.mp hc with ⟨e, he, hk⟩
  have hne := List.of_mem_filter he
  simp only [bne_iff_ne, ne_eq] at hne
  simp only [beq_iff_eq] at hk
  exact hne hk

theorem containsKey_hDel_mono (h : Header) (k k2 : String) :
    containsKey (hDel h k2) k = true → containsKey h k = true := by
  intro hc
  rcases List.any_eq_true.mp hc with ⟨e, he, hk⟩
  exact List.any_eq_true.mpr ⟨e, List.mem_of_mem_filter he, hk⟩

theorem containsKey_removeHeaders_mono (names : List String) (h : Header) (k : String) :
    containsKey (removeHeaders names h) k = true → containsKey h k = true := by
  induction names generalizing h with
  | nil => exact fun hc => hc
  | cons m rest ih => exact fun hc => containsKey_hDel_mono h k m (ih (hDel h m) hc)

theorem containsKey_removeHeaders_of_mem (names : List String) (h : Header) (n : String)
    (hn : n ∈ names) : containsKey (removeHeaders names h) n = false := by
  induction names generalizing h with
  | nil => simp at hn
  | cons m rest ih =>
    rcases List.mem_cons.mp hn with rfl | hn2
    · by_cases hr : n ∈ rest
      · exact ih (hDel h n) hr
      · have hstep : removeHeaders (n :: rest) h = removeHeaders rest (hDel h n) := rfl
        rw [hstep]
        cases hc : containsKey (removeHeaders rest (hDel h n)) n with
        | false => rfl
        | true =>
          have hm := containsKey_removeHeaders_mono rest (hDel h n) n hc
          rw [containsKey_hDel_self] at hm
          exact absurd hm (by simp)
    · exact ih (hDel h m) hn2

theorem hDel_eq_self_of_not_containsKey (h : Header) (k : String)
    (hc : containsKey h k = false) : hDel h k = h := by
  apply List.filter_eq_self.mpr
  intro e he
  simp only [containsKey, List.any_eq_false] at hc
  simpa using hc e he

theorem hasHeaders_cons (m : String) (rest : List String) (h : Header) :
    hasHeaders (m :: rest) h = (containsKey h m || hasHeaders rest h) := by
  simp [hasHeaders]

theorem removeHeaders_eq_self_of_not_hasHeaders (names : List String) (h : Header)
    (hn : hasHeaders names h = false) : removeHeaders names h = h := by
  induction names generalizing h with
  | nil => rfl
  | cons m rest ih =>
    rw [hasHeaders_cons] at hn
    rcases Bool.or_eq_false_iff.mp hn with ⟨h1, h2⟩
    have hstep : removeHeaders (m :: rest) h = removeHeaders rest (hDel h m) := rfl
    rw [hstep, hDel_eq_self_of_not_containsKey h m h1]
    exact ih h h2

theorem find?_append_none {α : Type} (p : α → Bool) (l1 l2 : List α)
    (h : l1.find? p = none) : (l1 ++ l2).find? p = l2.find? p := by
  induction l1 with
  | nil => rfl
  | cons x xs ih =>
    cases hx : p x with
    | true => simp [List.find?_cons, hx] at h
    | false =>
      simp only [List.find?_cons, hx] at h
      simpa [List.find?_cons, hx] using ih h

theorem hGet_hSet_self (h : Header) (k v : String) : hGet (hSet h k v) k = [v] := by
  unfold hGet hSet
  have hnone : (hDel h k).find? (fun e => e.1 == k) = none := by
    apply List.find?_eq_none.mpr
    intro e he
    have := List.of_mem_filter he
    simpa using this
  rw [find?_append_none _ _ _ hnone]
  simp [List.find?_cons]

theorem hGet_cons (e : String × List String) (rest : Header) (k : String) :
    hGet (e :: rest) k = if (e.1 == k) = true then e.2 else hGet rest k := by
  unfold hGet
  cases he : (e.1 == k) with
  | true => simp [List.find?_cons, he]
  | false => simp [List.find?_cons, he]

theorem hGet_hDel_ne (h : Header) (k k2 : String) (hne : k ≠ k2) :
    hGet (hDel h k2) k = hGet h k := by
  induction h with
  | nil => rfl
  | cons e rest ih =>
    show hGet (List.filter (fun x => x.1 != k2) (e :: rest)) k = hGet (e :: rest) k
    by_cases hek2 : e.1 = k2
    · have hek : (e.1 == k) = false := by
        simp only [beq_eq_false_iff_ne, ne_eq]
        intro hc
        exact hne (hc ▸ hek2)
      rw [List.filter_cons_of_neg (by simp [hek2]), hGet_cons, hek]
      simpa [hDel] using ih
    · rw [List.filter_cons_of_pos (by simp [hek2]), hGet_cons, hGet_cons]
      cases hek : (e.1 == k) with
      | true => simp
      | false =>
        simp only [Bool.false_eq_true, if_false]
        simpa [hDel] using ih

theorem hGet_hSet_ne (h : Header) (k k2 v : String) (hne : k ≠ k2) :
    hGet (hSet h k2 v) k = hGet h k := by
  unfold hSet
  have step : hGet (hDel h k2 ++ [(k2, [v])]) k = hGet (hDel h k2) k := by
    unfold hGet
    cases hf : (hDel h k2).find? (fun e => e.1 == k) with
    | some e => rw [List.find?_append, hf]; rfl
    | none =>
      rw [find?_append_none _ _ _ hf]
      simp [List.find?_cons, hne, Ne.symm hne]
  rw [step, hGet_hDel_ne h k k2 hne]

theorem hGet_removeHeaders_of_not_mem (names : List String) (h : Header) (k : String)
    (hk : k ∉ names) : hGet (removeHeaders names h) k = hGet h k := by
  induction names generalizing h with
  | nil => rfl
  | cons m rest ih =>
    have hstep : removeHeaders (m :: rest) h = removeHeaders rest (hDel h m) := rfl
    rw [hstep, ih (hDel h m) (fun hc => hk (List.mem_cons.mpr (Or.inr hc))),
      hGet_hDel_ne h k m (fun hc => hk (List.mem_cons.mpr (Or.inl hc)))]

/-! ### Claim theorems -/

theorem proxyFailoverLoop_spec (forward : Upstream → List Nat → Bool) :
    ∀ (ups : List Upstream) (b : Buffer),
    proxyFailoverLoop forward b ups =
      ((ups.takeWhile (fun u => !forward u b.data)).map (fun u => (u, b.data)) ++
        (match ups.find? (fun u => forward u b.data) with
         | some u => [(u, b.data)]
         | none => []),
       (match ups.find? (fun u => forward u b.data) with
        | some u => (some u, none)
        | none => (none, some (ProxyError.http 502)))) := by
  intro ups
  induction ups with
  | nil => intro b; rfl
  | cons u rest ih =>
    intro b
    cases hf : forward u b.data with
    | true =>
      simp [proxyFailoverLoop, seekZero, readAll, List.takeWhile_cons, List.find?_cons, hf]
    | false =>
      have hstep : proxyFailoverLoop forward b (u :: rest) =
          ((u, b.data) :: (proxyFailoverLoop forward ⟨b.data, b.data.length⟩ rest).1,
           (proxyFailoverLoop forward ⟨b.data, b.data.length⟩ rest).2) := by
        simp [proxyFailoverLoop, seekZero, readAll, hf]
      rw [hstep, ih ⟨b.data, b.data.length⟩]
      simp [List.takeWhile_cons, List.find?_cons, hf]

/-- C1: with failover enabled and a non-empty upstream list, `proxyRequest`
buffers the request body, seeks it to position 0 before each attempt (every
attempt forwards the identical buffered bytes), tries the upstreams in list
order, returns the first upstream whose forward succeeds, and returns a 502
`HttpError` when all upstreams fail; with failover disabled, exactly the
first upstream is tried and its failure surfaces as a 502 `HttpError`. -/
theorem proxyRequest_failover_spec (forward : Upstream → List Nat → Bool)
    (req : Buffer) (upstreams : List Upstream) (h : upstreams ≠ []) :
    (proxyRequest true forward req upstreams =
      some (((upstreams.takeWhile (fun u => !forward u (req.data.drop req.pos))).map
              (fun u => (u, req.data.drop req.pos)) ++
             (match upstreams.find? (fun u => forward u (req.data.drop req.pos)) with
              | some u => [(u, req.data.drop req.pos)]
              | none => []),
            (match upstreams.find? (fun u => forward u (req.data.drop req.pos)) with
             | some u => (some u, none)
             | none => (none, some (ProxyError.http 502)))))) ∧
    (proxyRequest false forward req upstreams =
      some ([(upstreams.head h, req.data.drop req.pos)],
            (some (upstreams.head h),
             if forward (upstreams.head h) (req.data.drop req.pos) = true then none
             else some (ProxyError.http 502)))) := by
  constructor
  · show some (proxyFailoverLoop forward ⟨(readAll req).1, 0⟩ upstreams) = _
    rw [proxyFailoverLoop_spec forward upstreams ⟨(readAll req).1, 0⟩]
    rfl
  · cases upstreams with
    | nil => exact absurd rfl h
    | cons u rest =>
      cases hf : forward u (req.data.drop req.pos) with
      | true => simp [proxyRequest, readAll, hf]
      | false => simp [proxyRequest, readAll, hf]

theorem proxyRequest_failover_spec_witness :
    (([⟨⟨"http", "a", "", ""⟩, none⟩, ⟨⟨"http", "b", "", ""⟩, none⟩] : List Upstream) ≠ []) ∧
    proxyRequest true (fun u _ => u.url.host == "b") ⟨[1, 2], 0⟩
        [⟨⟨"http", "a", "", ""⟩, none⟩, ⟨⟨"http", "b", "", ""⟩, none⟩] =
      some ([(⟨⟨"http", "a", "", ""⟩, none⟩, [1, 2]), (⟨⟨"http", "b", "", ""⟩, none⟩, [1, 2])],
            (some ⟨⟨"http", "b", "", ""⟩, none⟩, none)) := by
  refine ⟨by decide, ?_⟩
  exact ((proxyRequest_failover_spec (fun u _ => u.url.host == "b") ⟨[1, 2], 0⟩
    [⟨⟨"http", "a", "", ""⟩, none⟩, ⟨⟨"http", "b", "", ""⟩, none⟩] (by decide)).1).trans (by decide)

/-- C2: `getUpstreams` falls back to the load-balancer ordering of the full
input candidate set when the throttler backend errors; returns a
`TooManyRequestsError` carrying the backend retry-after seconds (surfaced
as 429 with `Retry-After`) when the feasible set is empty; and otherwise
returns the upstreams ordered by the returned per-upstream stats. -/
theorem getUpstreams_spec
    (sortedUpstreams : List Upstream → List Upstream)
    (sortedUpstreamsByStats : List UpstreamStats → List Upstream)
    (upstreams : List Upstream) (stats : List UpstreamStats) (retrySeconds : Int)
    (hperm : ∀ l, (sortedUpstreams l).Perm l) :
    (getUpstreams sortedUpstreams sortedUpstreamsByStats none upstreams =
        .ok (sortedUpstreams upstreams) ∧
      (sortedUpstreams upstreams).Perm upstreams) ∧
    (getUpstreams sortedUpstreams sortedUpstreamsByStats (some ([], retrySeconds)) upstreams =
        .error (ProxyError.tooManyRequests retrySeconds) ∧
      (ProxyError.tooManyRequests retrySeconds).statusCode = 429 ∧
      (ProxyError.tooManyRequests retrySeconds).retryAfter = some retrySeconds) ∧
    (stats ≠ [] →
      getUpstreams sortedUpstreams sortedUpstreamsByStats (some (stats, retrySeconds)) upstreams =
        .ok (sortedUpstreamsByStats stats)) := by
  refine ⟨⟨rfl, hperm upstreams⟩, ⟨rfl, rfl, rfl⟩, ?_⟩
  intro hs
  simp [getUpstreams, List.length_eq_zero, hs]

theorem getUpstreams_spec_witness :
    (∀ l : List Upstream, (id l).Perm l) ∧
    getUpstreams id (fun s => s.map (fun st => st.upstream)) none
        [⟨⟨"http", "a", "", ""⟩, none⟩] =
      .ok [⟨⟨"http", "a", "", ""⟩, none⟩] := by
  refine ⟨fun l => List.Perm.refl l, ?_⟩
  exact ((getUpstreams_spec id (fun s => s.map (fun st => st.upstream))
    [⟨⟨"http", "a", "", ""⟩, none⟩] [] 30 (fun l => List.Perm.refl l)).1.1).trans (by decide)

/-- C3: the claim that `upsertCursor` on a different ordered id sequence
never returns a previously created cursor fails on the code.  The FNV-32
hash processes the concatenated id bytes, so the sequences `["ab"]` and
`["a", "b"]` collide, and `getCursor` returns a singleton bucket without
the id-equality check: the second upsert returns the cursor created for
the first sequence (and allocates nothing), even though the stored id
sequence differs. -/
theorem upsertCursor_hash_collision_bug :
    ((upsertCursor (upsertCursor newCursorMap
        [⟨[97, 98], ⟨"", "", "", ""⟩, true⟩] 10).2
        [⟨[97], ⟨"", "", "", ""⟩, true⟩, ⟨[98], ⟨"", "", "", ""⟩, true⟩] 20).1 =
      (upsertCursor newCursorMap [⟨[97, 98], ⟨"", "", "", ""⟩, true⟩] 10).1) ∧
    ((upsertCursor (upsertCursor newCursorMap
        [⟨[97, 98], ⟨"", "", "", ""⟩, true⟩] 10).2
        [⟨[97], ⟨"", "", "", ""⟩, true⟩, ⟨[98], ⟨"", "", "", ""⟩, true⟩] 20).2.arena.length = 1) ∧
    ((cursorAt (upsertCursor newCursorMap [⟨[97, 98], ⟨"", "", "", ""⟩, true⟩] 10).2
        (upsertCursor newCursorMap [⟨[97, 98], ⟨"", "", "", ""⟩, true⟩] 10).1).endpointIds ≠
      [[97], [98]]) := by
  refine ⟨by decide, by decide, by decide⟩

/-- C4: the claim that `validateProxySettings` defaults a zero
`HttpDialTimeout` to the 10-second default fails on the code: the second
zero test re-examines `HttpReadTimeout` (which was just defaulted to a
nonzero value), so accepted settings with `HttpDialTimeout = 0` come back
with `HttpDialTimeout` still 0. -/
theorem validateProxySettings_dial_default_bug :
    validateProxySettings (some ⟨["http://c"], true, true, 0, 0⟩) =
      .ok ⟨["http://c"], true, true, DefaultHttpReadTimeout, 0⟩ ∧
    (0 : Int) ≠ DefaultHttpDialTimeout := by
  refine ⟨by decide, by decide⟩

theorem containsKey_after_strip (hp : HttpHeap) (r : Nat) (n : String) (hn : n ∈ hopHeaders) :
    containsKey (getHeaderAt
      (setHeaderAt hp r (removeHeaders hopHeaders (getHeaderAt hp r))) r) n = false := by
  by_cases hr : r < hp.headers.length
  · have : getHeaderAt (setHeaderAt hp r (removeHeaders hopHeaders (getHeaderAt hp r))) r =
        removeHeaders hopHeaders (getHeaderAt hp r) :=
      getD_set_eq hp.headers r _ [] hr
    rw [this]
    exact containsKey_removeHeaders_of_mem _ _ n hn
  · have hlen : hp.headers.length ≤ r := Nat.le_of_not_lt hr
    have : getHeaderAt (setHeaderAt hp r (removeHeaders hopHeaders (getHeaderAt hp r))) r = [] := by
      unfold getHeaderAt setHeaderAt
      exact List.getD_eq_default _ _ (by simpa using hlen)
    rw [this]
    rfl

/-- C5: for every inbound request and chosen upstream/endpoint, the
outbound request produced by `rewriteRequest` (proxy-level variant) and by
`HttpLocation.rewriteRequest` (location-level variant) contains none of the
hop-by-hop headers. -/
theorem rewriteRequest_no_hop_headers (hp : HttpHeap) (upstream : Upstream)
    (opts : Options) (endpoint : Endpoint) (req : Request) (n : String)
    (hn : n ∈ hopHeaders) :
    containsKey (getHeaderAt (rewriteRequest hp upstream req).1
      (rewriteRequest hp upstream req).2.headerRef) n = false ∧
    containsKey (getHeaderAt (HttpLocation.rewriteRequest hp opts endpoint req).1
      (HttpLocation.rewriteRequest hp opts endpoint req).2.headerRef) n = false := by
  constructor
  · exact containsKey_after_strip _ _ n hn
  · simp only [HttpLocation.rewriteRequest, getHeaderAt, setUrlAt]
    rw [getD_append_len]
    exact containsKey_removeHeaders_of_mem _ _ n hn

theorem rewriteRequest_no_hop_headers_witness :
    ("Connection" ∈ hopHeaders) ∧
    (containsKey (getHeaderAt
        (rewriteRequest ⟨[⟨"http", "client", "/x", "q"⟩], [[("Connection", ["close"])]]⟩
          ⟨⟨"http", "up", "/b", ""⟩, none⟩ ⟨0, 0, "HTTP/1.0", 1, 0, true, "h", "1.2.3.4:5", false⟩).1
        (rewriteRequest ⟨[⟨"http", "client", "/x", "q"⟩], [[("Connection", ["close"])]]⟩
          ⟨⟨"http", "up", "/b", ""⟩, none⟩ ⟨0, 0, "HTTP/1.0", 1, 0, true, "h", "1.2.3.4:5", false⟩).2.headerRef)
      "Connection" = false) := by
  refine ⟨by decide, ?_⟩
  exact (rewriteRequest_no_hop_headers ⟨[⟨"http", "client", "/x", "q"⟩], [[("Connection", ["close"])]]⟩
    ⟨⟨"http", "up", "/b", ""⟩, none⟩ ⟨0, 0, true, "", false, true⟩ ⟨[101], ⟨"", "", "", ""⟩, true⟩
    ⟨0, 0, "HTTP/1.0", 1, 0, true, "h", "1.2.3.4:5", false⟩ "Connection" (by decide)).1

theorem rewriteRequest_urls_eq (hp : HttpHeap) (upstream : Upstream) (req : Request) :
    (rewriteRequest hp upstream req).1.urls =
      hp.urls.set req.urlRef
        { getUrlAt hp req.urlRef with
          scheme := upstream.url.scheme, host := upstream.url.host, path := upstream.url.path } ∧
    (rewriteRequest hp upstream req).2.urlRef = req.urlRef := by
  constructor
  · unfold rewriteRequest
    cases hu : upstream.headers with
    | none =>
      simp only [hu]
      split <;> simp [setUrlAt, setHeaderAt]
    | some uh =>
      simp only [hu]
      split <;> simp [setUrlAt, setHeaderAt]
  · unfold rewriteRequest
    cases hu : upstream.headers with
    | none =>
      simp only [hu]
      split <;> simp [setUrlAt, setHeaderAt]
    | some uh =>
      simp only [hu]
      split <;> simp [setUrlAt, setHeaderAt]

theorem locRewriteRequest_urls_eq (hp : HttpHeap) (opts : Options)
    (endpoint : Endpoint) (req : Request) :
    (HttpLocation.rewriteRequest hp opts endpoint req).1.urls =
      hp.urls.set req.urlRef
        { getUrlAt hp req.urlRef with
          scheme := endpoint.url.scheme, host := endpoint.url.host } ∧
    (HttpLocation.rewriteRequest hp opts endpoint req).2.urlRef = req.urlRef := by
  simp [HttpLocation.rewriteRequest, setUrlAt]

/-- C9: both rewrite variants mutate the inbound request's URL object in
place; the outbound request shares the inbound's URL reference, and after
the call the inbound URL's scheme and host (and, in the proxy-level
variant, path) equal the chosen endpoint's values. -/
theorem rewriteRequest_mutates_url (hp : HttpHeap) (upstream : Upstream)
    (opts : Options) (endpoint : Endpoint) (req : Request)
    (h : req.urlRef < hp.urls.length) :
    ((rewriteRequest hp upstream req).2.urlRef = req.urlRef ∧
     getUrlAt (rewriteRequest hp upstream req).1 req.urlRef =
       { getUrlAt hp req.urlRef with
         scheme := upstream.url.scheme, host := upstream.url.host,
         path := upstream.url.path }) ∧
    ((HttpLocation.rewriteRequest hp opts endpoint req).2.urlRef = req.urlRef ∧
     getUrlAt (HttpLocation.rewriteRequest hp opts endpoint req).1 req.urlRef =
       { getUrlAt hp req.urlRef with
         scheme := endpoint.url.scheme, host := endpoint.url.host }) := by
  constructor
  · refine ⟨(rewriteRequest_urls_eq hp upstream req).2, ?_⟩
    unfold getUrlAt
    rw [(rewriteRequest_urls_eq hp upstream req).1]
    exact getD_set_eq hp.urls req.urlRef _ _ h
  · refine ⟨(locRewriteRequest_urls_eq hp opts endpoint req).2, ?_⟩
    unfold getUrlAt
    rw [(locRewriteRequest_urls_eq hp opts endpoint req).1]
    exact getD_set_eq hp.urls req.urlRef _ _ h

theorem rewriteRequest_mutates_url_witness :
    ((⟨0, 0, "HTTP/1.0", 1, 0, true, "h", "1.2.3.4:5", false⟩ : Request).urlRef <
      (⟨[⟨"http", "client", "/x", "q"⟩], [[]]⟩ : HttpHeap).urls.length) ∧
    getUrlAt (rewriteRequest ⟨[⟨"http", "client", "/x", "q"⟩], [[]]⟩
        ⟨⟨"https", "up", "/b", ""⟩, none⟩ ⟨0, 0, "HTTP/1.0", 1, 0, true, "h", "1.2.3.4:5", false⟩).1
      0 = ⟨"https", "up", "/b", "q"⟩ := by
  refine ⟨by decide, ?_⟩
  exact ((rewriteRequest_mutates_url ⟨[⟨"http", "client", "/x", "q"⟩], [[]]⟩
    ⟨⟨"https", "up", "/b", ""⟩, none⟩ ⟨0, 0, true, "", false, true⟩ ⟨[101], ⟨"", "", "", ""⟩, true⟩
    ⟨0, 0, "HTTP/1.0", 1, 0, true, "h", "1.2.3.4:5", false⟩ (by decide)).1.2).trans (by decide)

theorem getHeaderAt_setUrlAt (hp : HttpHeap) (r2 : Nat) (u : Url) (r : Nat) :
    getHeaderAt (setUrlAt hp r2 u) r = getHeaderAt hp r := rfl

/-- C6: the claim that the outbound header mapping never shares storage
with the inbound one is false for the proxy-level `rewriteRequest`: when
the upstream supplies no headers and the inbound carries no hop-by-hop
header, the outbound request references the inbound's header map, and a
mutation through the outbound reference is visible through the inbound
reference. -/
theorem rewriteRequest_shares_header_counterexample :
    ((rewriteRequest ⟨[⟨"http", "client", "/x", "q"⟩], [[("Accept", ["text"])]]⟩
        ⟨⟨"http", "up", "/b", ""⟩, none⟩
        ⟨0, 0, "HTTP/1.0", 1, 0, true, "h", "1.2.3.4:5", false⟩).2.headerRef =
      (⟨0, 0, "HTTP/1.0", 1, 0, true, "h", "1.2.3.4:5", false⟩ : Request).headerRef) ∧
    (getHeaderAt
        (setHeaderAt
          (rewriteRequest ⟨[⟨"http", "client", "/x", "q"⟩], [[("Accept", ["text"])]]⟩
            ⟨⟨"http", "up", "/b", ""⟩, none⟩
            ⟨0, 0, "HTTP/1.0", 1, 0, true, "h", "1.2.3.4:5", false⟩).1
          (rewriteRequest ⟨[⟨"http", "client", "/x", "q"⟩], [[("Accept", ["text"])]]⟩
            ⟨⟨"http", "up", "/b", ""⟩, none⟩
            ⟨0, 0, "HTTP/1.0", 1, 0, true, "h", "1.2.3.4:5", false⟩).2.headerRef
          [("Mutated", ["yes"])])
        (⟨0, 0, "HTTP/1.0", 1, 0, true, "h", "1.2.3.4:5", false⟩ : Request).headerRef =
      [("Mutated", ["yes"])]) := by
  refine ⟨by decide, by decide⟩

theorem setUrlAt_headers (hp : HttpHeap) (r : Nat) (u : Url) :
    (setUrlAt hp r u).headers = hp.headers := rfl

theorem getHeaderAt_setHeaderAt_ne (hp : HttpHeap) (r r2 : Nat) (v : Header) (hne : r ≠ r2) :
    getHeaderAt (setHeaderAt hp r v) r2 = getHeaderAt hp r2 :=
  getD_set_ne hp.headers r r2 v [] hne

theorem getHeaderAt_setHeaderAt_eq (hp : HttpHeap) (r : Nat) (v : Header)
    (hr : r < hp.headers.length) : getHeaderAt (setHeaderAt hp r v) r = v :=
  getD_set_eq hp.headers r v [] hr

/-- C6 amended: the location-level `HttpLocation.rewriteRequest` always
allocates a fresh header mapping; the proxy-level `rewriteRequest`
allocates a fresh mapping exactly when the upstream supplies headers or
the inbound request carries a hop-by-hop header, and otherwise the
outbound shares the inbound's mapping; in every case the inbound header
mapping is left unchanged by the rewrite itself. -/
theorem rewriteRequest_header_sharing_amended (hp : HttpHeap) (upstream : Upstream)
    (opts : Options) (endpoint : Endpoint) (req : Request)
    (h : req.headerRef < hp.headers.length) :
    (((rewriteRequest hp upstream req).2.headerRef = req.headerRef) ↔
      (upstream.headers = none ∧
       hasHeaders hopHeaders (getHeaderAt hp req.headerRef) = false)) ∧
    getHeaderAt (rewriteRequest hp upstream req).1 req.headerRef =
      getHeaderAt hp req.headerRef ∧
    ((HttpLocation.rewriteRequest hp opts endpoint req).2.headerRef ≠ req.headerRef) ∧
    getHeaderAt (HttpLocation.rewriteRequest hp opts endpoint req).1 req.headerRef =
      getHeaderAt hp req.headerRef := by
  have hlocRef : (HttpLocation.rewriteRequest hp opts endpoint req).2.headerRef =
      hp.headers.length := by
    simp [HttpLocation.rewriteRequest, setUrlAt]
  refine ⟨?_, ?_, ?_, ?_⟩
  · cases hu : upstream.headers with
    | none =>
      by_cases hht : hasHeaders hopHeaders (getHeaderAt hp req.headerRef) = true
      · have hfresh : (rewriteRequest hp upstream req).2.headerRef = hp.headers.length := by
          unfold rewriteRequest
          simp only [hu, Option.isSome_none, Bool.false_or, getHeaderAt_setUrlAt, hht, if_true,
            setUrlAt_headers]
        rw [hfresh]
        constructor
        · intro hc; exact absurd (hc ▸ h) (lt_irrefl _)
        · intro hc; exact absurd hht (by simp [hc.2])
      · rw [Bool.not_eq_true] at hht
        have hshare : (rewriteRequest hp upstream req).2.headerRef = req.headerRef := by
          unfold rewriteRequest
          simp only [hu, Option.isSome_none, Bool.false_or, getHeaderAt_setUrlAt, hht,
            Bool.false_eq_true, if_false]
        rw [hshare]
        simp [hu, hht]
    | some uh =>
      have hfresh : (rewriteRequest hp upstream req).2.headerRef = hp.headers.length := by
        unfold rewriteRequest
        simp only [hu, Option.isSome_some, Bool.true_or, if_true, setUrlAt_headers]
      rw [hfresh]
      constructor
      · intro hc; exact absurd (hc ▸ h) (lt_irrefl _)
      · intro hc; exact Option.noConfusion hc.1
  · cases hu : upstream.headers with
    | none =>
      by_cases hht : hasHeaders hopHeaders (getHeaderAt hp req.headerRef) = true
      · unfold rewriteRequest
        simp only [hu, Option.isSome_none, Bool.false_or, getHeaderAt_setUrlAt, hht, if_true,
          setUrlAt_headers]
        rw [getHeaderAt_setHeaderAt_ne _ _ _ _ (Ne.symm (Nat.ne_of_lt h))]
        simp only [getHeaderAt, setUrlAt_headers]
        rw [getD_append_lt _ _ _ _ h]
      · rw [Bool.not_eq_true] at hht
        unfold rewriteRequest
        simp only [hu, Option.isSome_none, Bool.false_or, getHeaderAt_setUrlAt, hht,
          Bool.false_eq_true, if_false, setUrlAt_headers]
        rw [getHeaderAt_setHeaderAt_eq]
        · exact removeHeaders_eq_self_of_not_hasHeaders _ _ hht
        · exact h
    | some uh =>
      unfold rewriteRequest
      simp only [hu, Option.isSome_some, Bool.true_or, if_true, setUrlAt_headers]
      rw [getHeaderAt_setHeaderAt_ne _ _ _ _ (Ne.symm (Nat.ne_of_lt h)),
        getHeaderAt_setHeaderAt_ne _ _ _ _ (Ne.symm (Nat.ne_of_lt h))]
      simp only [getHeaderAt, setUrlAt_headers]
      rw [getD_append_lt _ _ _ _ h]
  · rw [hlocRef]
    exact Ne.symm (Nat.ne_of_lt h)
  · unfold HttpLocation.rewriteRequest
    simp only [getHeaderAt, setUrlAt_headers]
    rw [getD_append_lt _ _ _ _ h]

theorem rewriteRequest_header_sharing_amended_witness :
    ((⟨0, 0, "HTTP/1.0", 1, 0, true, "h", "1.2.3.4:5", false⟩ : Request).headerRef <
      (⟨[⟨"http", "client", "/x", "q"⟩], [[("Accept", ["text"])]]⟩ : HttpHeap).headers.length) ∧
    getHeaderAt (rewriteRequest ⟨[⟨"http", "client", "/x", "q"⟩], [[("Accept", ["text"])]]⟩
        ⟨⟨"http", "up", "/b", ""⟩, some [("X-Up", ["1"])]⟩
        ⟨0, 0, "HTTP/1.0", 1, 0, true, "h", "1.2.3.4:5", false⟩).1 0 = [("Accept", ["text"])] := by
  refine ⟨by decide, ?_⟩
  exact ((rewriteRequest_header_sharing_amended
    ⟨[⟨"http", "client", "/x", "q"⟩], [[("Accept", ["text"])]]⟩
    ⟨⟨"http", "up", "/b", ""⟩, some [("X-Up", ["1"])]⟩ ⟨0, 0, true, "", false, true⟩
    ⟨[101], ⟨"", "", "", ""⟩, true⟩ ⟨0, 0, "HTTP/1.0", 1, 0, true, "h", "1.2.3.4:5", false⟩
    (by decide)).2.1).trans (by decide)

theorem locRewrite_xForwardedServer (hp : HttpHeap) (opts : Options)
    (endpoint : Endpoint) (req : Request) :
    hGet (getHeaderAt (HttpLocation.rewriteRequest hp opts endpoint req).1
      (HttpLocation.rewriteRequest hp opts endpoint req).2.headerRef) xForwardedServer =
    [opts.hostname] := by
  unfold HttpLocation.rewriteRequest
  simp only [getHeaderAt, setUrlAt_headers]
  rw [getD_append_len]
  rw [hGet_removeHeaders_of_not_mem _ _ _ (by decide), hGet_hSet_self]

/-- C10: `parseOptions` assigns the operating-system hostname to an empty
`Hostname` only when the hostname lookup returns an error; when the lookup
succeeds, `Hostname` stays empty, and `HttpLocation.rewriteRequest`
consequently sets the `X-Forwarded-Server` header of every outbound
request to the empty string. -/
theorem parseOptions_hostname_spec (osHostname : String) (o : Options)
    (hp : HttpHeap) (endpoint : Endpoint) (req : Request)
    (h : o.hostname = "") :
    (parseOptions osHostname false o).hostname = "" ∧
    (parseOptions osHostname true o).hostname = osHostname ∧
    hGet (getHeaderAt
        (HttpLocation.rewriteRequest hp (parseOptions osHostname false o) endpoint req).1
        (HttpLocation.rewriteRequest hp (parseOptions osHostname false o) endpoint req).2.headerRef)
      xForwardedServer = [""] := by
  have h1 : (parseOptions osHostname false o).hostname = "" := by
    unfold parseOptions
    simp [apply_ite Options.hostname, h]
  have h2 : (parseOptions osHostname true o).hostname = osHostname := by
    unfold parseOptions
    simp [apply_ite Options.hostname, h]
  refine ⟨h1, h2, ?_⟩
  rw [locRewrite_xForwardedServer, h1]

theorem parseOptions_hostname_spec_witness :
    ((⟨0, 0, true, "", false, true⟩ : Options).hostname = "") ∧
    (parseOptions "oshost" false ⟨0, 0, true, "", false, true⟩).hostname = "" := by
  refine ⟨by decide, ?_⟩
  exact (parseOptions_hostname_spec "oshost" ⟨0, 0, true, "", false, true⟩ ⟨[], []⟩
    ⟨[], ⟨"", "", "", ""⟩, true⟩ ⟨0, 0, "", 1, 0, true, "", "", false⟩ (by decide)).1

theorem tdiv_nonneg_le (a g : Int) (ha : 0 ≤ a) (hg : 0 ≤ g) :
    0 ≤ a.tdiv g ∧ a.tdiv g ≤ a := by
  obtain ⟨m, rfl⟩ := Int.eq_ofNat_of_zero_le ha
  obtain ⟨n, rfl⟩ := Int.eq_ofNat_of_zero_le hg
  constructor
  · show (0 : Int) ≤ Int.ofNat (m / n)
    exact Int.ofNat_nonneg _
  · show Int.ofNat (m / n) ≤ Int.ofNat m
    exact Int.ofNat_le.mpr (Nat.div_le_self m n)

theorem normalizeWeights_bound (ws : List EndpointWeight) (M : Int) (hM : 0 ≤ M)
    (hb : ∀ w ∈ ws, 0 ≤ w.weight ∧ w.weight ≤ M) :
    ∀ w ∈ normalizeWeights ws, 0 ≤ w.weight ∧ w.weight ≤ M := by
  intro w hw
  unfold normalizeWeights at hw
  by_cases hg : weightsGcd ws ≤ 1
  · rw [if_pos hg] at hw
    exact hb w hw
  · rw [if_neg hg] at hw
    rcases List.mem_map.mp hw with ⟨w0, hw0, rfl⟩
    have hg0 : 0 ≤ weightsGcd ws := by omega
    have hb0 := hb w0 hw0
    have ht := tdiv_nonneg_le w0.weight (weightsGcd ws) hb0.1 hg0
    exact ⟨ht.1, le_trans ht.2 hb0.2⟩

theorem adjustWeights_bound (fsm : FSMHandler) (good : List String)
    (hb : ∀ e ∈ fsm.endpoints, endpointBounded e) :
    ∀ w ∈ fsm.adjustWeights good, 0 ≤ w.weight ∧ w.weight ≤ FSMMaxWeight := by
  apply normalizeWeights_bound _ _ (by decide)
  intro w hw
  rcases List.mem_map.mp hw with ⟨e, he, rfl⟩
  rcases hb e he with ⟨ho1, ho2, he1, he2⟩
  by_cases hc : good.contains e.id = true ∧ increase e.effectiveWeight ≤ FSMMaxWeight
  · simp only [if_pos hc]
    refine ⟨?_, hc.2⟩
    unfold increase
    exact mul_nonneg he1 (by decide)
  · simp only [if_neg hc]
    exact ⟨he1, he2⟩

theorem convergeWeights_bound (fsm : FSMHandler)
    (hb : ∀ e ∈ fsm.endpoints, endpointBounded e) :
    ∀ w ∈ fsm.convergeWeights.1, 0 ≤ w.weight ∧ w.weight ≤ FSMMaxWeight := by
  apply normalizeWeights_bound _ _ (by decide)
  intro w hw
  rcases List.mem_map.mp hw with ⟨e, he, rfl⟩
  rcases hb e he with ⟨ho1, ho2, he1, he2⟩
  unfold decrease
  by_cases hc : e.effectiveWeight.tdiv FSMGrowFactor < e.originalWeight
  · simp only [if_pos hc]
    exact ⟨ho1, ho2⟩
  · simp only [if_neg hc]
    have ht := tdiv_nonneg_le e.effectiveWeight FSMGrowFactor he1 (by decide)
    exact ⟨ht.1, le_trans ht.2 he2⟩

theorem AdjustWeights_bound (fsm : FSMHandler) (now : Int) (hb : fsmBounded fsm) :
    fsmBounded (fsm.AdjustWeights now).1 ∧
    (∀ w ∈ (fsm.AdjustWeights now).2, 0 ≤ w.weight ∧ w.weight ≤ FSMMaxWeight) := by
  obtain ⟨hbe, hbo, hbl⟩ := hb
  unfold FSMHandler.AdjustWeights
  by_cases h1 : fsm.endpoints.length < 2
  · simp only [if_pos h1]
    exact ⟨⟨hbe, hbo, hbl⟩, hbo⟩
  · simp only [if_neg h1]
    by_cases h2 : metricsReady fsm.endpoints = true
    · simp only [h2, Bool.not_true, Bool.false_eq_true, if_false]
      by_cases h3 : fsm.timerExpired now = true
      · simp only [h3, Bool.not_true, Bool.false_eq_true, if_false]
        by_cases h4 : (splitEndpoints fsm.endpoints).2.length = 0 ∨
            (splitEndpoints fsm.endpoints).1.length = 0
        · simp only [if_pos h4]
          by_cases h5 : fsm.convergeWeights.2 = true
          · simp only [h5, if_true]
            have hc := convergeWeights_bound fsm hbe
            exact ⟨⟨hbe, hbo, hc⟩, hc⟩
          · simp only [h5, Bool.false_eq_true, if_false]
            exact ⟨⟨hbe, hbo, hbl⟩, hbl⟩
        · simp only [if_neg h4]
          have ha := adjustWeights_bound fsm (splitEndpoints fsm.endpoints).1 hbe
          exact ⟨⟨hbe, hbo, ha⟩, ha⟩
      · have h3f : fsm.timerExpired now = false := by
          revert h3; cases fsm.timerExpired now <;> simp
        simp only [h3f, Bool.not_false, if_true]
        exact ⟨⟨hbe, hbo, hbl⟩, hbl⟩
    · have h2f : metricsReady fsm.endpoints = false := by
        revert h2; cases metricsReady fsm.endpoints <;> simp
      simp only [h2f, Bool.not_false, if_true]
      exact ⟨⟨hbe, hbo, hbl⟩, hbo⟩

theorem runFSM_bound (events : List FSMEvent) :
    ∀ fsm : FSMHandler, fsmBounded fsm → eventsBounded events →
    fsmBounded (runFSM fsm events).1 ∧
    ∀ ws ∈ (runFSM fsm events).2, ∀ w ∈ ws, 0 ≤ w.weight ∧ w.weight ≤ FSMMaxWeight := by
  induction events with
  | nil =>
    intro fsm hb _
    exact ⟨hb, by intro ws hws; simp [runFSM] at hws⟩
  | cons ev rest ih =>
    intro fsm hb hev
    have hevRest : eventsBounded rest :=
      fun e he => hev e (List.mem_cons.mpr (Or.inr he))
    cases ev with
    | initEvent es now =>
      have hes : ∀ e ∈ es, endpointBounded e :=
        hev (FSMEvent.initEvent es now) (List.mem_cons.mpr (Or.inl rfl))
      have hmk : ∀ w ∈ makeOriginalWeights es, 0 ≤ w.weight ∧ w.weight ≤ FSMMaxWeight := by
        intro w hw
        rcases List.mem_map.mp hw with ⟨e, he, rfl⟩
        rcases hes e he with ⟨a, b, _, _⟩
        exact ⟨a, b⟩
      have hb2 : fsmBounded (fsm.init es now) := ⟨hes, hmk, hmk⟩
      exact ih (fsm.init es now) hb2 hevRest
    | adjustEvent now =>
      have hstep := AdjustWeights_bound fsm now hb
      have hrest := ih (fsm.AdjustWeights now).1 hstep.1 hevRest
      refine ⟨hrest.1, ?_⟩
      intro ws hws
      have hws2 : ws ∈ (fsm.AdjustWeights now).2 ::
          (runFSM (fsm.AdjustWeights now).1 rest).2 := hws
      rcases List.mem_cons.mp hws2 with rfl | h2
      · exact hstep.2
      · exact hrest.2 ws h2

/-- C7: the claim that no weight published by `AdjustWeights` exceeds
`FSMMaxWeight = 4096` fails on the code: original weights are never
capped, so a single endpoint initialised with original weight 8192 has
exactly that weight published. -/
theorem fsm_weight_bound_counterexample :
    (runFSM FSMHandler.initial
        [FSMEvent.initEvent [⟨"a", 8192, 8192, 0, false, 2000000000⟩] 0,
         FSMEvent.adjustEvent 1]).2 =
      [[⟨⟨"a", 8192, 8192, 0, false, 2000000000⟩, 8192⟩]] ∧
    ¬ ((8192 : Int) ≤ FSMMaxWeight) := by
  refine ⟨by decide, by decide⟩

/-- C7 amended: for every sequence of `Init` and `AdjustWeights` calls in
which every endpoint handed to `Init` has original and effective weight in
`[0, FSMMaxWeight]`, no weight in a weight list published by
`AdjustWeights` (diverge, converge, or returned unchanged, after GCD
normalisation) exceeds `FSMMaxWeight = 4096`. -/
theorem fsm_published_weights_bounded (events : List FSMEvent)
    (h : eventsBounded events) :
    ∀ ws ∈ (runFSM FSMHandler.initial events).2, ∀ w ∈ ws,
      0 ≤ w.weight ∧ w.weight ≤ FSMMaxWeight :=
  (runFSM_bound events FSMHandler.initial
    ⟨fun e he => absurd he (List.not_mem_nil e),
     fun w hw => absurd hw (List.not_mem_nil w),
     fun w hw => absurd hw (List.not_mem_nil w)⟩ h).2

theorem fsm_published_weights_bounded_witness :
    eventsBounded [FSMEvent.initEvent [⟨"a", 1, 1, 0, false, 2⟩] 0, FSMEvent.adjustEvent 1] ∧
    ∀ ws ∈ (runFSM FSMHandler.initial
        [FSMEvent.initEvent [⟨"a", 1, 1, 0, false, 2⟩] 0, FSMEvent.adjustEvent 1]).2,
      ∀ w ∈ ws, 0 ≤ w.weight ∧ w.weight ≤ FSMMaxWeight :=
  ⟨by decide, fsm_published_weights_bounded _ (by decide)⟩

theorem pqFold_mem (rest : List PQItem) (x : PQItem) :
    rest.foldl (fun acc y => if y.priority < acc.priority then y else acc) x ∈ x :: rest := by
  induction rest generalizing x with
  | nil => simp
  | cons y ys ih =>
    simp only [List.foldl_cons]
    rcases List.mem_cons.mp (ih (if y.priority < x.priority then y else x)) with h | h
    · rw [h]
      by_cases hy : y.priority < x.priority
      · simp [hy]
      · simp [hy]
    · exact List.mem_cons.mpr (Or.inr (List.mem_cons.mpr (Or.inr h)))

theorem pqFold_min (rest : List PQItem) (x : PQItem) :
    (rest.foldl (fun acc y => if y.priority < acc.priority then y else acc) x).priority ≤
        x.priority ∧
    ∀ y ∈ rest,
      (rest.foldl (fun acc y => if y.priority < acc.priority then y else acc) x).priority ≤
        y.priority := by
  induction rest generalizing x with
  | nil => exact ⟨le_refl _, by simp⟩
  | cons y ys ih =>
    simp only [List.foldl_cons]
    by_cases hy : y.priority < x.priority
    · rw [if_pos hy]
      have hih := ih y
      refine ⟨le_trans hih.1 (le_of_lt hy), ?_⟩
      intro z hz
      rcases List.mem_cons.mp hz with rfl | hz2
      · exact hih.1
      · exact hih.2 z hz2
    · rw [if_neg hy]
      have hih := ih x
      refine ⟨hih.1, ?_⟩
      intro z hz
      rcases List.mem_cons.mp hz with rfl | hz2
      · exact le_trans hih.1 (le_of_not_lt hy)
      · exact hih.2 z hz2

theorem pqPeek_mem (pq : List PQItem) (it : PQItem) (h : pqPeek pq = some it) : it ∈ pq := by
  cases pq with
  | nil => simp [pqPeek] at h
  | cons x rest =>
    have hx : pqPeek (x :: rest) =
        some (rest.foldl (fun acc y => if y.priority < acc.priority then y else acc) x) := rfl
    rw [hx] at h
    exact (Option.some_inj.mp h) ▸ pqFold_mem rest x

theorem pqPeek_min (pq : List PQItem) (it : PQItem) (h : pqPeek pq = some it) :
    ∀ x ∈ pq, it.priority ≤ x.priority := by
  cases pq with
  | nil => simp [pqPeek] at h
  | cons x rest =>
    have hx : pqPeek (x :: rest) =
        some (rest.foldl (fun acc y => if y.priority < acc.priority then y else acc) x) := rfl
    rw [hx] at h
    intro z hz
    rcases List.mem_cons.mp hz with rfl | hz2
    · exact (Option.some_inj.mp h) ▸ (pqFold_min rest z).1
    · exact (Option.some_inj.mp h) ▸ (pqFold_min rest x).2 z hz2

theorem map_erase_of_nodup {α β : Type} [DecidableEq α] [DecidableEq β]
    (f : α → β) (l : List α) (a : α) (hnd : (l.map f).Nodup) (ha : a ∈ l) :
    (l.erase a).map f = (l.map f).erase (f a) := by
  induction l with
  | nil => simp at ha
  | cons x xs ih =>
    by_cases hx : x = a
    · subst hx
      rw [List.erase_cons_head, List.map_cons, List.erase_cons_head]
    · have hax : a ∈ xs := by
        rcases List.mem_cons.mp ha with h | h
        · exact absurd h.symm hx
        · exact h
      have hfa : f x ≠ f a := by
        intro hc
        have hmem : f a ∈ xs.map f := List.mem_map.mpr ⟨a, hax, rfl⟩
        rw [List.map_cons, List.nodup_cons] at hnd
        exact hnd.1 (hc ▸ hmem)
      have hnd2 : (xs.map f).Nodup := by
        rw [List.map_cons, List.nodup_cons] at hnd
        exact hnd.2
      rw [List.erase_cons_tail (by simp [hx]), List.map_cons, List.map_cons,
        List.erase_cons_tail (by simp [hfa]), ih hnd2 hax]

theorem map_id_of_cond {α : Type} (f : α → α) (l : List α) (h : ∀ b ∈ l, f b = b) :
    l.map f = l := by
  induction l with
  | nil => rfl
  | cons x xs ih =>
    rw [List.map_cons, h x (by simp), ih (fun b hb => h b (by simp [hb]))]

theorem assocFind_of_split (l1 l2 : List (Nat × List Nat)) (h : Nat) (v : List Nat)
    (h1 : ∀ b ∈ l1, b.1 ≠ h) :
    assocFind (l1 ++ (h, v) :: l2) h = some v := by
  unfold assocFind
  rw [find?_append_none]
  · simp [List.find?_cons]
  · apply List.find?_eq_none.mpr
    intro b hb
    simp [h1 b hb]

theorem assocSet_of_split (l1 l2 : List (Nat × List Nat)) (h : Nat) (v v2 : List Nat)
    (h1 : ∀ b ∈ l1, b.1 ≠ h) (h2 : ∀ b ∈ l2, b.1 ≠ h) :
    assocSet (l1 ++ (h, v) :: l2) h v2 = l1 ++ (h, v2) :: l2 := by
  unfold assocSet
  have ht1 : List.map (fun b => if b.1 == h then (h, v2) else b) l1 = l1 :=
    map_id_of_cond _ l1 (fun b hb => by simp [h1 b hb])
  have ht2 : List.map (fun b => if b.1 == h then (h, v2) else b) l2 = l2 :=
    map_id_of_cond _ l2 (fun b hb => by simp [h2 b hb])
  rw [List.map_append, ht1, List.map_cons, ht2]
  simp

theorem assocRemove_of_split (l1 l2 : List (Nat × List Nat)) (h : Nat) (v : List Nat)
    (h1 : ∀ b ∈ l1, b.1 ≠ h) (h2 : ∀ b ∈ l2, b.1 ≠ h) :
    assocRemove (l1 ++ (h, v) :: l2) h = l1 ++ l2 := by
  unfold assocRemove
  rw [List.filter_append]
  congr 1
  · exact List.filter_eq_self.mpr (fun b hb => by simp [h1 b hb])
  · rw [List.filter_cons_of_neg (by simp)]
    exact List.filter_eq_self.mpr (fun b hb => by simp [h2 b hb])

theorem bucketIds_split (l1 l2 : List (Nat × List Nat)) (h : Nat) (v : List Nat) :
    ((l1 ++ (h, v) :: l2).map (fun b => b.2)).flatten =
      (l1.map (fun b => b.2)).flatten ++ (v ++ (l2.map (fun b => b.2)).flatten) := by
  simp

theorem bucket_split_of_mem (cm : CursorMap) (cid : Nat) (hwf : wellFormed cm)
    (hcid : cid ∈ bucketCursorIds cm) :
    ∃ l1 v l2, cm.buckets = l1 ++ ((cursorAt cm cid).hash, v) :: l2 ∧ cid ∈ v ∧
      (∀ b ∈ l1, b.1 ≠ (cursorAt cm cid).hash) ∧
      (∀ b ∈ l2, b.1 ≠ (cursorAt cm cid).hash) := by
  obtain ⟨hkeys, hids, hcond, hperm⟩ := hwf
  unfold bucketCursorIds at hcid
  rcases List.mem_flatten.mp hcid with ⟨ids, hidsmem, hcidmem⟩
  rcases List.mem_map.mp hidsmem with ⟨b, hb, rfl⟩
  have hhash : (cursorAt cm cid).hash = b.1 := ((hcond b hb).2 cid hcidmem).2
  rcases List.append_of_mem hb with ⟨l1, l2, hsplit⟩
  have hkeys2 : (l1.map (fun b => b.1) ++ b.1 :: l2.map (fun b => b.1)).Nodup := by
    rw [hsplit] at hkeys
    simpa using hkeys
  rcases List.nodup_append.mp hkeys2 with ⟨hn1, hn2, hdisj⟩
  refine ⟨l1, b.2, l2, ?_, hcidmem, ?_, ?_⟩
  · rw [hhash, Prod.mk.eta]
    exact hsplit
  · intro b2 hb2 hc
    exact hdisj (List.mem_map.mpr ⟨b2, hb2, rfl⟩)
      (by rw [hc, hhash]; exact List.mem_cons.mpr (Or.inl rfl))
  · intro b2 hb2 hc
    rw [List.nodup_cons] at hn2
    exact hn2.1 (by
      rw [← hhash, ← hc]
      exact List.mem_map.mpr ⟨b2, hb2, rfl⟩)

theorem gc_step (cm : CursorMap) (it : PQItem) (hwf : wellFormed cm) (hit : it ∈ cm.pq) :
    wellFormed { deleteCursor cm it.cursorId with pq := cm.pq.erase it } := by
  obtain ⟨hkeys, hids, hcond, hperm⟩ := hwf
  have hpqnd : (cm.pq.map (fun x => x.cursorId)).Nodup := hperm.nodup_iff.mpr hids
  have hcid : it.cursorId ∈ bucketCursorIds cm :=
    hperm.mem_iff.mp (List.mem_map.mpr ⟨it, hit, rfl⟩)
  obtain ⟨l1, v, l2, hsplit, hv, hne1, hne2⟩ :=
    bucket_split_of_mem cm it.cursorId ⟨hkeys, hids, hcond, hperm⟩ hcid
  have hmapErase : (cm.pq.erase it).map (fun x => x.cursorId) =
      (cm.pq.map (fun x => x.cursorId)).erase it.cursorId :=
    map_erase_of_nodup _ cm.pq it hpqnd hit
  have hids2 : ((l1.map (fun b => b.2)).flatten ++
      (v ++ (l2.map (fun b => b.2)).flatten)).Nodup := by
    have := hids
    unfold bucketCursorIds at this
    rw [hsplit, bucketIds_split] at this
    exact this
  rcases List.nodup_append.mp hids2 with ⟨hida, hidb, hdisj2⟩
  have hnotin1 : it.cursorId ∉ (l1.map (fun b => b.2)).flatten :=
    fun hc => hdisj2 hc (List.mem_append.mpr (Or.inl hv))
  have herase : (bucketCursorIds cm).erase it.cursorId =
      (l1.map (fun b => b.2)).flatten ++
        (v.erase it.cursorId ++ (l2.map (fun b => b.2)).flatten) := by
    unfold bucketCursorIds
    rw [hsplit, bucketIds_split, List.erase_append_right _ hnotin1,
      List.erase_append_left _ hv]
  have hbmem : ((cursorAt cm it.cursorId).hash, v) ∈ cm.buckets := by
    rw [hsplit]
    exact List.mem_append.mpr (Or.inr (List.mem_cons.mpr (Or.inl rfl)))
  by_cases he : (v.erase it.cursorId).isEmpty
  · have hve : v.erase it.cursorId = [] := by simpa using he
    have hdel : deleteCursor cm it.cursorId = { cm with buckets := l1 ++ l2 } := by
      unfold deleteCursor
      rw [hsplit]
      dsimp only
      rw [assocFind_of_split _ _ _ _ hne1]
      dsimp only
      rw [if_pos hv]
      rw [if_pos he, assocRemove_of_split _ _ _ _ hne1 hne2]
    rw [hdel]
    refine ⟨?_, ?_, ?_, ?_⟩
    · show ((l1 ++ l2).map (fun b => b.1)).Nodup
      have hkeys3 : ((l1 ++ ((cursorAt cm it.cursorId).hash, v) :: l2).map
          (fun b => b.1)).Nodup := by
        rw [← hsplit]
        exact hkeys
      exact hkeys3.sublist
        (List.Sublist.map _ (List.Sublist.append_left (List.sublist_cons_self _ _) l1))
    · show (((l1 ++ l2).map (fun b => b.2)).flatten).Nodup
      have : ((l1 ++ l2).map (fun b => b.2)).flatten =
          (l1.map (fun b => b.2)).flatten ++ (l2.map (fun b => b.2)).flatten := by simp
      rw [this]
      rcases List.nodup_append.mp hidb with ⟨hv1, hv2, hd3⟩
      apply List.nodup_append.mpr
      refine ⟨hida, hv2, ?_⟩
      intro a ha1 ha2
      exact hdisj2 ha1 (List.mem_append.mpr (Or.inr ha2))
    · intro b hb
      have hbmem2 : b ∈ cm.buckets := by
        rw [hsplit]
        rcases List.mem_append.mp hb with h1 | h2
        · exact List.mem_append.mpr (Or.inl h1)
        · exact List.mem_append.mpr (Or.inr (List.mem_cons.mpr (Or.inr h2)))
      exact hcond b hbmem2
    · show ((cm.pq.erase it).map (fun x => x.cursorId)).Perm
        (((l1 ++ l2).map (fun b => b.2)).flatten)
      rw [hmapErase]
      have hp := hperm.erase it.cursorId
      rw [herase, hve] at hp
      have : ((l1 ++ l2).map (fun b => b.2)).flatten =
          (l1.map (fun b => b.2)).flatten ++ ([] ++ (l2.map (fun b => b.2)).flatten) := by simp
      rw [this]
      exact hp
  · have hdel : deleteCursor cm it.cursorId =
        { cm with buckets := l1 ++ ((cursorAt cm it.cursorId).hash, v.erase it.cursorId) :: l2 } := by
      unfold deleteCursor
      rw [hsplit]
      dsimp only
      rw [assocFind_of_split _ _ _ _ hne1]
      dsimp only
      rw [if_pos hv]
      rw [if_neg he, assocSet_of_split _ _ _ _ _ hne1 hne2]
    rw [hdel]
    refine ⟨?_, ?_, ?_, ?_⟩
    · show ((l1 ++ ((cursorAt cm it.cursorId).hash, v.erase it.cursorId) :: l2).map
        (fun b => b.1)).Nodup
      have heq : (l1 ++ ((cursorAt cm it.cursorId).hash, v.erase it.cursorId) :: l2).map
            (fun b => b.1) =
          (l1 ++ ((cursorAt cm it.cursorId).hash, v) :: l2).map (fun b => b.1) := by
        simp
      rw [heq, ← hsplit]
      exact hkeys
    · show (((l1 ++ ((cursorAt cm it.cursorId).hash, v.erase it.cursorId) :: l2).map
        (fun b => b.2)).flatten).Nodup
      rw [bucketIds_split]
      rcases List.nodup_append.mp hids2 with ⟨ha2, hb2, hd2⟩
      rcases List.nodup_append.mp hb2 with ⟨hvn, hl2n, hd3⟩
      apply List.nodup_append.mpr
      refine ⟨ha2, ?_, ?_⟩
      · apply List.nodup_append.mpr
        refine ⟨hvn.sublist (List.erase_sublist _ _), hl2n, ?_⟩
        intro a ha1 hb1
        exact hd3 (List.mem_of_mem_erase ha1) hb1
      · intro a ha1 hb1
        rcases List.mem_append.mp hb1 with h1 | h2
        · exact hd2 ha1 (List.mem_append.mpr (Or.inl (List.mem_of_mem_erase h1)))
        · exact hd2 ha1 (List.mem_append.mpr (Or.inr h2))
    · intro b hb
      rcases List.mem_append.mp hb with h1 | h2
      · exact hcond b (by rw [hsplit]; exact List.mem_append.mpr (Or.inl h1))
      · rcases List.mem_cons.mp h2 with rfl | h3
        · constructor
          · simpa using he
          · intro cid2 hcid2
            exact (hcond _ hbmem).2 cid2 (List.mem_of_mem_erase hcid2)
        · exact hcond b (by
            rw [hsplit]
            exact List.mem_append.mpr (Or.inr (List.mem_cons.mpr (Or.inr h3))))
    · show ((cm.pq.erase it).map (fun x => x.cursorId)).Perm
        (((l1 ++ ((cursorAt cm it.cursorId).hash, v.erase it.cursorId) :: l2).map
          (fun b => b.2)).flatten)
      rw [hmapErase, bucketIds_split]
      have hp := hperm.erase it.cursorId
      rw [herase] at hp
      exact hp

theorem gc_unfold_none (cm : CursorMap) (now : Int) (h : pqPeek cm.pq = none) :
    deleteExpiredCursors cm now = cm := by
  unfold deleteExpiredCursors
  split
  · rfl
  · rename_i it hpeek2
    rw [h] at hpeek2
    cases hpeek2

theorem gc_unfold_stop (cm : CursorMap) (now : Int) (it : PQItem)
    (h : pqPeek cm.pq = some it) (hprio : it.priority > now) :
    deleteExpiredCursors cm now = cm := by
  unfold deleteExpiredCursors
  split
  · rfl
  · rename_i it2 hpeek2
    rw [h] at hpeek2
    cases hpeek2
    rw [if_pos hprio]

theorem gc_unfold_pop (cm : CursorMap) (now : Int) (it : PQItem)
    (h : pqPeek cm.pq = some it) (hprio : ¬ it.priority > now) :
    deleteExpiredCursors cm now =
      deleteExpiredCursors { deleteCursor cm it.cursorId with pq := cm.pq.erase it } now := by
  conv_lhs => unfold deleteExpiredCursors
  split
  · rename_i hpeek2
    rw [hpeek2] at h
    cases h
  · rename_i it2 hpeek2
    rw [h] at hpeek2
    cases hpeek2
    rw [if_neg hprio]

theorem deleteExpiredCursors_wf (now : Int) :
    ∀ n (cm : CursorMap), cm.pq.length ≤ n → wellFormed cm →
      wellFormed (deleteExpiredCursors cm now) ∧
      ∀ it ∈ (deleteExpiredCursors cm now).pq, now < it.priority := by
  intro n
  induction n with
  | zero =>
    intro cm hlen hwf
    have hpq : cm.pq = [] := List.length_eq_zero.mp (Nat.le_zero.mp hlen)
    have hgc : deleteExpiredCursors cm now = cm :=
      gc_unfold_none cm now (by rw [hpq]; rfl)
    rw [hgc]
    refine ⟨hwf, ?_⟩
    intro it hit
    rw [hpq] at hit
    simp at hit
  | succ n ih =>
    intro cm hlen hwf
    cases hpeek : pqPeek cm.pq with
    | none =>
      have hgc := gc_unfold_none cm now hpeek
      rw [hgc]
      refine ⟨hwf, ?_⟩
      intro it hit
      cases hpq : cm.pq with
      | nil => rw [hpq] at hit; simp at hit
      | cons x rest => rw [hpq] at hpeek; exact absurd hpeek (by simp [pqPeek])
    | some it =>
      by_cases hprio : it.priority > now
      · have hgc := gc_unfold_stop cm now it hpeek hprio
        rw [hgc]
        refine ⟨hwf, ?_⟩
        intro it2 hit2
        have hmin := pqPeek_min cm.pq it hpeek it2 hit2
        omega
      · have hit : it ∈ cm.pq := pqPeek_mem cm.pq it hpeek
        have hgc := gc_unfold_pop cm now it hpeek hprio
        rw [hgc]
        apply ih
        · show (cm.pq.erase it).length ≤ n
          have hle := List.length_erase_of_mem hit
          have hpos : 0 < cm.pq.length := List.length_pos.mpr (List.ne_nil_of_mem hit)
          omega
        · exact gc_step cm it hwf hit

/-- C8: for every well-formed cursor table (each stored cursor occupies
exactly one heap slot, matched to its bucket) and every time value `now`,
after `deleteExpiredCursors now`: the table is still well formed, every
remaining heap entry (hence every remaining cursor expiry) exceeds `now`,
no cursor whose expiry is at most `now` remains in the table, the heap
size equals the number of cursors stored in the map, and running the GC a
second time with the same `now` removes nothing further (idempotence). -/
theorem deleteExpiredCursors_gc (cm : CursorMap) (now : Int) (hwf : wellFormed cm) :
    wellFormed (deleteExpiredCursors cm now) ∧
    (∀ it ∈ (deleteExpiredCursors cm now).pq, now < it.priority) ∧
    (∀ cid ∈ bucketCursorIds (deleteExpiredCursors cm now),
      ∃ it ∈ (deleteExpiredCursors cm now).pq, it.cursorId = cid ∧ now < it.priority) ∧
    (deleteExpiredCursors cm now).pq.length =
      (bucketCursorIds (deleteExpiredCursors cm now)).length ∧
    deleteExpiredCursors (deleteExpiredCursors cm now) now =
      deleteExpiredCursors cm now := by
  obtain ⟨hwf2, hall⟩ := deleteExpiredCursors_wf now cm.pq.length cm (le_refl _) hwf
  refine ⟨hwf2, hall, ?_, ?_, ?_⟩
  · intro cid hcid
    have hperm := hwf2.2.2.2
    have hmem : cid ∈ (deleteExpiredCursors cm now).pq.map (fun x => x.cursorId) :=
      hperm.mem_iff.mpr hcid
    rcases List.mem_map.mp hmem with ⟨it, hit, rfl⟩
    exact ⟨it, hit, rfl, hall it hit⟩
  · have hperm := hwf2.2.2.2
    have hlen := hperm.length_eq
    simpa using hlen
  · cases hpeek : pqPeek (deleteExpiredCursors cm now).pq with
    | none => exact gc_unfold_none _ now hpeek
    | some it =>
      have hmem := pqPeek_mem _ it hpeek
      exact gc_unfold_stop _ now it hpeek (hall it hmem)

theorem deleteExpiredCursors_gc_witness :
    wellFormed ⟨[⟨0, 7, [[97]]⟩, ⟨0, 8, [[98]]⟩], [(7, [0]), (8, [1])],
      [⟨0, 5⟩, ⟨1, 50⟩]⟩ ∧
    (deleteExpiredCursors ⟨[⟨0, 7, [[97]]⟩, ⟨0, 8, [[98]]⟩], [(7, [0]), (8, [1])],
        [⟨0, 5⟩, ⟨1, 50⟩]⟩ 10).pq.length =
      (bucketCursorIds (deleteExpiredCursors ⟨[⟨0, 7, [[97]]⟩, ⟨0, 8, [[98]]⟩],
        [(7, [0]), (8, [1])], [⟨0, 5⟩, ⟨1, 50⟩]⟩ 10)).length :=
  ⟨by decide, (deleteExpiredCursors_gc _ 10 (by decide)).2.2.2.1⟩
